import Mathlib

/-!
Verification of the geoguessr-source-extractor core: a shallow embedding of
the token model and the structural pattern recognizers of
`geoguessr_source_extractor` (`interesting_things.py`, `webpack.py`,
`build_manifest.py`, `app.py`, `extractor.py`), with theorems settling the
frozen claims about them.

Strings handed to the escape-aware JSON decoder are modelled as lists of
Unicode code points (`List Nat`), because the decoder's whole point is to
avoid emitting lone surrogate code points, which Lean's `Char` cannot even
represent.
-/

namespace GSE

/-! ## Escape-aware JSON decoder: the two regex passes
(`interesting_things.py`, `_convert_hex_escape` lines 32-37 and
`_unescape_and_parse_json` lines 40-49). -/

/-- Code point of a backslash. -/
def bsl : Nat := 92

/-- ASCII hex digit test, the `[\dA-Fa-f]` character class of the pattern in
`_unescape_and_parse_json` (Python's `\d` also admits non-ASCII decimal
digits; the model restricts to ASCII, which covers every claim at issue). -/
def isHexDigitCp (c : Nat) : Bool :=
  (48 ≤ c && c ≤ 57) || (65 ≤ c && c ≤ 70) || (97 ≤ c && c ≤ 102)

/-- Numeric value of an ASCII hex digit code point. -/
def hexVal (c : Nat) : Nat :=
  if c ≤ 57 then c - 48 else if c ≤ 70 then c - 55 else c - 87

/-- `int(match[1] or match[2], 16)` for a two-digit `\xHH` match. -/
def hexPair (d1 d2 : Nat) : Nat := hexVal d1 * 16 + hexVal d2

/-- `int(match[1] or match[2], 16)` for a four-digit `\uHHHH` match. -/
def hexQuad (d1 d2 d3 d4 : Nat) : Nat :=
  ((hexVal d1 * 16 + hexVal d2) * 16 + hexVal d3) * 16 + hexVal d4

/-- The UTF-16 surrogate test `0xD800 <= char_code <= 0xDFFF` of
`_convert_hex_escape` (`interesting_things.py` line 34). -/
def isSurrogate (code : Nat) : Bool := 0xD800 ≤ code && code ≤ 0xDFFF

/-- First pass of `_unescape_and_parse_json` (line 42):
`re.sub(r'\\x([\dA-Fa-f]{2})|\\u([\dA-Fa-f]{4})', _convert_hex_escape, text)`,
with `_convert_hex_escape` substituting `chr(char_code)` for a match, except
that a code in the surrogate range is replaced by `'\' + match[0]`, i.e. the
escape sequence with one more leading backslash.  `re.sub` scans left to
right and matches are non-overlapping; a position where neither alternative
matches emits its character unchanged and the scan moves on by one. -/
def subHexEscapesF : Nat → List Nat → List Nat
  | 0, s => s
  | _ + 1, [] => []
  | f + 1, c :: rest =>
    if c = 92 then
      match rest with
      | 120 :: d1 :: d2 :: r =>
        if isHexDigitCp d1 && isHexDigitCp d2 then
          if isSurrogate (hexPair d1 d2) then
            92 :: 92 :: 120 :: d1 :: d2 :: subHexEscapesF f r
          else
            hexPair d1 d2 :: subHexEscapesF f r
        else 92 :: subHexEscapesF f (120 :: d1 :: d2 :: r)
      | 117 :: d1 :: d2 :: d3 :: d4 :: r =>
        if isHexDigitCp d1 && isHexDigitCp d2 && isHexDigitCp d3 && isHexDigitCp d4 then
          if isSurrogate (hexQuad d1 d2 d3 d4) then
            92 :: 92 :: 117 :: d1 :: d2 :: d3 :: d4 :: subHexEscapesF f r
          else
            hexQuad d1 d2 d3 d4 :: subHexEscapesF f r
        else 92 :: subHexEscapesF f (117 :: d1 :: d2 :: d3 :: d4 :: r)
      | other => 92 :: subHexEscapesF f other
    else c :: subHexEscapesF f rest

/-- The first pass at its natural amount of fuel: one unit per scan position
(each step of `subHexEscapesF` consumes at least one character, so a fuel of
the input length always suffices; exhausted fuel returns the remaining input
unchanged and is unreachable from here). -/
def subHexEscapes (s : List Nat) : List Nat := subHexEscapesF s.length s

/-- Second pass of `_unescape_and_parse_json` (line 43):
`re.sub(r'\\(.)', r'\1', text)`.  Python's `.` matches every character except
a newline, so a backslash followed by a newline is not a match and the scan
moves past the backslash by one. -/
def collapseBackslashesF : Nat → List Nat → List Nat
  | 0, s => s
  | _ + 1, [] => []
  | f + 1, c :: rest =>
    if c = 92 then
      match rest with
      | d :: r =>
        if d = 10 then 92 :: collapseBackslashesF f (d :: r)
        else d :: collapseBackslashesF f r
      | [] => [92]
    else c :: collapseBackslashesF f rest

/-- The second pass at its natural amount of fuel (see `subHexEscapes`). -/
def collapseBackslashes (s : List Nat) : List Nat := collapseBackslashesF s.length s

/-- The full text transformation of `_unescape_and_parse_json` (lines 42-43):
the text handed to the JSON parser (`pydantic_core.from_json`). -/
def unescapedForJson (s : List Nat) : List Nat :=
  collapseBackslashes (subHexEscapes s)

/-! ## Token model

The lexer is `jsbeautifier`'s tokenizer (an external library; `tokenize.py`
merely wraps it), so recognizers are embedded as functions over a token
sequence rather than over raw script text.  Tokens carry the attributes the
recognizers read: `type`, `text`, `newlines`, `whitespace_before`. -/

inductive TokType where
  | TK_STRING
  | TK_WORD
  | TK_RESERVED
  | TK_OPERATOR
  | TK_EQUALS
  | TK_COMMA
  | TK_START_BLOCK
  | TK_END_BLOCK
  | TK_START_EXPR
  | TK_END_EXPR
  | TK_DOT
  | TK_SEMICOLON
  | TK_COMMENT
  | TK_EOF
  deriving DecidableEq, Repr

structure Tok where
  ttype : TokType
  text : String
  newlines : Nat := 0
  wsBefore : String := ""
  deriving DecidableEq, Repr

/-- A tokenized file: the ordered token sequence.  Tokens are referenced by
stream position (an arena of indices, as cross-links would otherwise form
reference cycles); `Option Nat` is a possibly-`None` token reference. -/
structure Arena where
  toks : List Tok
  deriving DecidableEq, Repr

def eofTok : Tok := ⟨.TK_EOF, "", 0, ""⟩

def Arena.n (a : Arena) : Nat := a.toks.length

def Arena.tok (a : Arena) (i : Nat) : Tok := a.toks.getD i eofTok

def Arena.typ (a : Arena) (i : Nat) : TokType := (a.tok i).ttype

def Arena.txt (a : Arena) (i : Nat) : String := (a.tok i).text

/-- `token.next`: the adjacent token in stream order. -/
def Arena.next (a : Arena) (i : Nat) : Option Nat :=
  if i + 1 < a.n then some (i + 1) else none

/-- `token.previous`.  The first token has none. -/
def Arena.prev (a : Arena) (i : Nat) : Option Nat :=
  if 0 < i ∧ i < a.n then some (i - 1) else none

def isStartTok (t : Tok) : Bool :=
  t.ttype = .TK_START_BLOCK || t.ttype = .TK_START_EXPR

def isEndTok (t : Tok) : Bool :=
  t.ttype = .TK_END_BLOCK || t.ttype = .TK_END_EXPR

/-- The delimiter pairing check of the tokenizer's tree pass:
`]` with `[`, `)` with `(`, `}` with `{`. -/
def delimMatches (openTxt closeTxt : String) : Bool :=
  (closeTxt = "]" && openTxt = "[") || (closeTxt = ")" && openTxt = "(") ||
    (closeTxt = "\x7d" && openTxt = "\x7b")

/-- Modelled from the spec: the Token-Tree Index (spec section 3 and 4.2),
which in the running system is computed by the external `jsbeautifier`
tokenizer rather than by code under `src/`.  A single pass with a stack of
currently-open delimiters assigns to every token its `parent` (the innermost
open delimiter whose matching close has not yet occurred; a matched closing
token's parent is its opener's parent), to every matched closing token its
`opened` link, and to every matched opening token its `closed` link.
Returns (parent links in order, opened links in order, (opener, closer)
pairs); the stack holds (index, text) of open delimiters. -/
def buildRelsGo : List Tok → Nat → List (Nat × String) →
    List (Option Nat) × List (Option Nat) × List (Nat × Nat)
  | [], _, _ => ([], [], [])
  | t :: rest, i, stack =>
    if isStartTok t then
      let (ps, os, cs) := buildRelsGo rest (i + 1) ((i, t.text) :: stack)
      ((stack.head?.map Prod.fst) :: ps, none :: os, cs)
    else if isEndTok t then
      match stack with
      | (oi, otxt) :: stack2 =>
        if delimMatches otxt t.text then
          let (ps, os, cs) := buildRelsGo rest (i + 1) stack2
          ((stack2.head?.map Prod.fst) :: ps, some oi :: os, (oi, i) :: cs)
        else
          let (ps, os, cs) := buildRelsGo rest (i + 1) stack
          ((stack.head?.map Prod.fst) :: ps, none :: os, cs)
      | [] =>
        let (ps, os, cs) := buildRelsGo rest (i + 1) []
        (none :: ps, none :: os, cs)
    else
      let (ps, os, cs) := buildRelsGo rest (i + 1) stack
      ((stack.head?.map Prod.fst) :: ps, none :: os, cs)

def Arena.rels (a : Arena) : List (Option Nat) × List (Option Nat) × List (Nat × Nat) :=
  buildRelsGo a.toks 0 []

/-- `token.parent`. -/
def Arena.parent (a : Arena) (i : Nat) : Option Nat := a.rels.1.getD i none

/-- `token.opened` (set on a matched closing delimiter). -/
def Arena.opened (a : Arena) (i : Nat) : Option Nat := a.rels.2.1.getD i none

/-- `token.closed` (set on a matched opening delimiter). -/
def Arena.closed (a : Arena) (i : Nat) : Option Nat :=
  (a.rels.2.2.find? (fun p => p.1 = i)).map Prod.snd

/-! ## Python error values

Exceptions raised by the embedded code.  `UnexpectedParseError` subclasses
`NotParseableError` in `interesting_things.py`; the catch clauses that rely
on that are embedded explicitly, so distinct constructors suffice here. -/

inductive PyErr where
  | attributeError
  | valueError
  | stopIteration
  | assertionError
  | indexError
  | typeError
  | validationError
  | notParseable
  | unexpectedParse
  deriving DecidableEq, Repr

/-- Attribute access on a possibly-`None` token reference: Python raises
`AttributeError` on `None.<attr>`. -/
def refGet : Option Nat → Except PyErr Nat
  | none => .error .attributeError
  | some i => .ok i

/-! ## Python string/int helpers used by the recognizers -/

def isQuoteCh (c : Char) : Bool := c.toNat = 34 || c.toNat = 39

/-- `text.strip('"\\'')`: removes every leading and trailing single or double
quote character. -/
def stripQuotes (s : String) : String :=
  ⟨((s.data.dropWhile isQuoteCh).reverse.dropWhile isQuoteCh).reverse⟩

/-- `text.startswith(p)` (computed on the character list so that concrete
instances evaluate inside the kernel). -/
def pyStartsWith (s p : String) : Bool := p.data.isPrefixOf s.data

/-- `text.removeprefix(p)`: drops one occurrence of the prefix if present. -/
def pyRemovePfx (s p : String) : String :=
  if pyStartsWith s p then ⟨s.data.drop p.data.length⟩ else s

def isWsCh (c : Char) : Bool :=
  c.toNat = 32 || c.toNat = 9 || c.toNat = 10 || c.toNat = 13

def isDigitCh (c : Char) : Bool := 48 ≤ c.toNat && c.toNat ≤ 57

def digitsVal (ds : List Char) : Nat :=
  ds.foldl (fun a d => a * 10 + (d.toNat - 48)) 0

def trimWs (cs : List Char) : List Char :=
  (cs.dropWhile isWsCh).reverse.dropWhile isWsCh |>.reverse

/-- Python's strict `int(str)`: optional surrounding whitespace, optional
sign, decimal digits (digit-group underscores are not modelled).  `None`
models `ValueError`. -/
def pyIntParse (s : String) : Option Int :=
  match trimWs s.data with
  | [] => none
  | c :: rest =>
    if c.toNat = 45 then
      if rest ≠ [] ∧ rest.all isDigitCh then some (-(digitsVal rest : Int)) else none
    else if c.toNat = 43 then
      if rest ≠ [] ∧ rest.all isDigitCh then some (digitsVal rest : Int) else none
    else if (c :: rest).all isDigitCh then some (digitsVal (c :: rest) : Int)
    else none

/-- `int(float(s))` (used for owner ids, e.g. to accept `14e3`): sign,
integer digits, optional fraction, optional decimal exponent, evaluated in
exact arithmetic and truncated toward zero as `int()` does.  (For the short
numerals the recognizers read this agrees with IEEE-754 evaluation;
`inf`/`nan` and precision loss on very long numerals are not modelled.)
`ValueError` when the numeral is malformed. -/
def pyIntOfFloatStr (s : String) : Except PyErr Int :=
  let cs := trimWs s.data
  let (neg, cs1) :=
    match cs with
    | c :: t =>
      if c.toNat = 45 then (true, t) else if c.toNat = 43 then (false, t) else (false, cs)
    | [] => (false, cs)
  let ip := cs1.takeWhile isDigitCh
  let cs2 := cs1.dropWhile isDigitCh
  let (fp, cs3) :=
    match cs2 with
    | c :: t => if c.toNat = 46 then (t.takeWhile isDigitCh, t.dropWhile isDigitCh) else ([], cs2)
    | [] => ([], cs2)
  if ip = [] ∧ fp = [] then .error .valueError
  else
    let mant : Nat := digitsVal (ip ++ fp)
    let parseExp : List Char → Except PyErr Int := fun l =>
      match l with
      | [] => .ok 0
      | c :: t =>
        if c.toNat = 101 ∨ c.toNat = 69 then
          let (eneg, t1) :=
            match t with
            | e1 :: t2 =>
              if e1.toNat = 45 then (true, t2)
              else if e1.toNat = 43 then (false, t2) else (false, t)
            | [] => (false, t)
          if t1 ≠ [] ∧ t1.all isDigitCh then
            .ok (if eneg then -(digitsVal t1 : Int) else (digitsVal t1 : Int))
          else .error .valueError
        else .error .valueError
    match parseExp cs3 with
    | .error e => .error e
    | .ok ex =>
      let shift : Int := ex - (fp.length : Int)
      let mag : Nat :=
        if 0 ≤ shift then mant * 10 ^ shift.toNat else mant / 10 ^ (-shift).toNat
      .ok (if neg then -(mag : Int) else (mag : Int))

/-- A Python `set` modelled as a duplicate-free list in insertion order. -/
def setAdd {α : Type} [DecidableEq α] (l : List α) (x : α) : List α :=
  if x ∈ l then l else l ++ [x]

/-- Python `d[k] = v`: replace in place when the key exists (dicts keep the
first-insertion position), append otherwise. -/
def dictInsert {α β : Type} [DecidableEq α] (d : List (α × β)) (k : α) (v : β) :
    List (α × β) :=
  if d.any (fun p => p.1 = k) then d.map (fun p => if p.1 = k then (p.1, v) else p)
  else d ++ [(k, v)]

def dictLookup {α β : Type} [DecidableEq α] (d : List (α × β)) (k : α) : Option β :=
  (d.find? (fun p => p.1 = k)).map Prod.snd

/-! ## JSON values

Modelled from the spec: "finally decode the result as a JSON value" - the
decode step is the external `pydantic_core.from_json`, not code under
`src/`.  JSON strings are lists of code points (escape decoding may produce
surrogate-range values that `Char` cannot hold); numbers are restricted to
integers (floating-point numerals are rejected by this model; no claim at
issue involves them). -/

inductive Json where
  | null
  | bool (b : Bool)
  | num (n : Int)
  | str (s : List Nat)
  | arr (xs : List Json)
  | obj (kvs : List (List Nat × Json))

def isDigitCp (c : Nat) : Bool := 48 ≤ c && c ≤ 57

def jsonWsCp (c : Nat) : Bool := c = 32 || c = 9 || c = 10 || c = 13

def skipJsonWs (s : List Nat) : List Nat := s.dropWhile jsonWsCp

/-- Body of a JSON string after the opening quote: returns (decoded code
points, rest after the closing quote). -/
def parseJsonStrBody : List Nat → Except PyErr (List Nat × List Nat)
  | [] => .error .valueError
  | 34 :: rest => .ok ([], rest)
  | 92 :: 117 :: d1 :: d2 :: d3 :: d4 :: rest =>
    if isHexDigitCp d1 && isHexDigitCp d2 && isHexDigitCp d3 && isHexDigitCp d4 then
      match parseJsonStrBody rest with
      | .ok (s, r) => .ok (hexQuad d1 d2 d3 d4 :: s, r)
      | .error e => .error e
    else .error .valueError
  | 92 :: e :: rest =>
    let c? : Option Nat :=
      if e = 34 then some 34
      else if e = 92 then some 92
      else if e = 47 then some 47
      else if e = 98 then some 8
      else if e = 102 then some 12
      else if e = 110 then some 10
      else if e = 114 then some 13
      else if e = 116 then some 9
      else none
    match c? with
    | some c =>
      match parseJsonStrBody rest with
      | .ok (s, r) => .ok (c :: s, r)
      | .error e2 => .error e2
    | none => .error .valueError
  | c :: rest =>
    match parseJsonStrBody rest with
    | .ok (s, r) => .ok (c :: s, r)
    | .error e => .error e

def jsonDigitsVal (ds : List Nat) : Nat := ds.foldl (fun a d => a * 10 + (d - 48)) 0

mutual

/-- One JSON value at the head of the input (whitespace-tolerant); returns
(value, rest).  Fuel bounds nesting; one unit is spent per nested value, so
the input length suffices. -/
def parseJsonVal : Nat → List Nat → Except PyErr (Json × List Nat)
  | 0, _ => .error .valueError
  | f + 1, s =>
    match skipJsonWs s with
    | 110 :: 117 :: 108 :: 108 :: rest => .ok (.null, rest)
    | 116 :: 114 :: 117 :: 101 :: rest => .ok (.bool true, rest)
    | 102 :: 97 :: 108 :: 115 :: 101 :: rest => .ok (.bool false, rest)
    | 34 :: rest =>
      match parseJsonStrBody rest with
      | .ok (str, r) => .ok (.str str, r)
      | .error e => .error e
    | 91 :: rest =>
      match skipJsonWs rest with
      | 93 :: r2 => .ok (.arr [], r2)
      | _ =>
        match parseJsonItems f rest with
        | .ok (xs, r2) => .ok (.arr xs, r2)
        | .error e => .error e
    | 123 :: rest =>
      match skipJsonWs rest with
      | 125 :: r2 => .ok (.obj [], r2)
      | _ =>
        match parseJsonMembers f rest with
        | .ok (kvs, r2) => .ok (.obj kvs, r2)
        | .error e => .error e
    | 45 :: rest =>
      let ds := rest.takeWhile isDigitCp
      let r2 := rest.dropWhile isDigitCp
      if ds = [] then .error .valueError
      else
        match r2 with
        | 46 :: _ => .error .valueError
        | 101 :: _ => .error .valueError
        | 69 :: _ => .error .valueError
        | _ => .ok (.num (-(jsonDigitsVal ds : Int)), r2)
    | c :: rest =>
      if isDigitCp c then
        let ds := c :: rest.takeWhile isDigitCp
        let r2 := rest.dropWhile isDigitCp
        match r2 with
        | 46 :: _ => .error .valueError
        | 101 :: _ => .error .valueError
        | 69 :: _ => .error .valueError
        | _ => .ok (.num (jsonDigitsVal ds : Int), r2)
      else .error .valueError
    | [] => .error .valueError

/-- Comma-separated array elements up to and including the closing `]`. -/
def parseJsonItems : Nat → List Nat → Except PyErr (List Json × List Nat)
  | 0, _ => .error .valueError
  | f + 1, s =>
    match parseJsonVal f s with
    | .error e => .error e
    | .ok (v, r) =>
      match skipJsonWs r with
      | 44 :: r2 =>
        match parseJsonItems f r2 with
        | .ok (vs, r3) => .ok (v :: vs, r3)
        | .error e => .error e
      | 93 :: r2 => .ok ([v], r2)
      | _ => .error .valueError

/-- Comma-separated `"key": value` members up to and including the closing
brace. -/
def parseJsonMembers : Nat → List Nat → Except PyErr (List (List Nat × Json) × List Nat)
  | 0, _ => .error .valueError
  | f + 1, s =>
    match skipJsonWs s with
    | 34 :: rest =>
      match parseJsonStrBody rest with
      | .error e => .error e
      | .ok (key, r) =>
        match skipJsonWs r with
        | 58 :: r2 =>
          match parseJsonVal f r2 with
          | .error e => .error e
          | .ok (v, r3) =>
            match skipJsonWs r3 with
            | 44 :: r4 =>
              match parseJsonMembers f r4 with
              | .ok (kvs, r5) => .ok ((key, v) :: kvs, r5)
              | .error e => .error e
            | 125 :: r4 => .ok ([(key, v)], r4)
            | _ => .error .valueError
        | _ => .error .valueError
    | _ => .error .valueError

end

/-- Modelled from the spec: `pydantic_core.from_json` on the unescaped text
(raises `ValueError` on text that is not a JSON document). -/
def pydanticFromJson (s : List Nat) : Except PyErr Json :=
  match parseJsonVal (s.length + 1) s with
  | .error e => .error e
  | .ok (v, rest) => if skipJsonWs rest = [] then .ok v else .error .valueError

/-- `_unescape_and_parse_json` (`interesting_things.py` lines 40-49): the two
regex passes followed by the JSON decode.  The `TypeError` fallback to
`json.loads` (lines 46-49) is dead for string inputs and is not modelled;
the log-message formatting is elided. -/
def unescapeAndParseJson (text : String) : Except PyErr Json :=
  pydanticFromJson (unescapedForJson (text.data.map Char.toNat))

/-! ## Inlined-JSON recognizer (`parse_json_literal`, `interesting_things.py`
lines 52-106) -/

/-- `parse_json_literal(json_token, parse_token)`: checks that the argument
of `JSON.parse` is exactly one string literal, decodes it, and reads the
owner id from the context immediately enclosing the `JSON` token.  The error
message assembled by walking the argument tokens (lines 73-79) is pure log
formatting and is elided; the raised error is the same. -/
def parseJsonLiteral (a : Arena) (jsonIdx parseIdx : Nat) : Except PyErr (Int × Json) := do
  let jpStart := a.next parseIdx
  let jpStartI ← refGet jpStart
  let jpArg := a.next jpStartI
  let jpArgI ← refGet jpArg
  if a.typ jpArgI ≠ .TK_STRING then
    throw .notParseable
  else if a.next jpArgI ≠ a.closed jpStartI then
    throw .notParseable
  else do
    let raw := stripQuotes (a.txt jpArgI)
    let j ← unescapeAndParseJson raw
    let fb := a.parent jsonIdx
    let fbI ← refGet fb
    let fae := a.prev fbI
    let faeI ← refGet fae
    match a.opened faeI with
    | none => throw .unexpectedParse
    | some fabI => do
      let fkI ← refGet (a.prev fabI)
      let colI ← refGet (a.prev fkI)
      let keyI ← refGet (a.prev colI)
      let n ← pyIntOfFloatStr (a.txt keyI)
      pure (n, j)

/-! ## Owner-id walker (`get_function_id`, lines 159-183) -/

/-- The parent-chain walk of `get_function_id`: from a block `{` whose
previous token is a matched `)` preceded (through its opener) by the
reserved word `function`, read the token three `previous`-steps before the
opener and parse it with strict `int`; otherwise continue with the next
enclosing parent.  Fuel bounds the walk (parents always point strictly
earlier in the stream). -/
def getFunctionIdGo (a : Arena) : Option Nat → Nat → Except PyErr (Option Int)
  | none, _ => .ok none
  | some _, 0 => .error .assertionError
  | some t, fuel + 1 =>
    if a.typ t = .TK_START_BLOCK ∧ a.txt t = "\x7b" then
      match a.prev t with
      | some pv =>
        if a.typ pv = .TK_END_EXPR ∧ a.txt pv = ")" then
          match a.opened pv with
          | some op => do
            let opPrevI ← refGet (a.prev op)
            if a.typ opPrevI = .TK_RESERVED ∧ a.txt opPrevI = "function" then do
              let p2I ← refGet (a.prev opPrevI)
              match a.prev p2I with
              | some fid =>
                if a.typ fid = .TK_WORD then
                  match pyIntParse (a.txt fid) with
                  | some n => .ok (some n)
                  | none => getFunctionIdGo a (a.parent t) fuel
                else getFunctionIdGo a (a.parent t) fuel
              | none => getFunctionIdGo a (a.parent t) fuel
            else getFunctionIdGo a (a.parent t) fuel
          | none => getFunctionIdGo a (a.parent t) fuel
        else getFunctionIdGo a (a.parent t) fuel
      | none => getFunctionIdGo a (a.parent t) fuel
    else getFunctionIdGo a (a.parent t) fuel

def getFunctionId (a : Arena) (tokIdx : Nat) : Except PyErr (Option Int) :=
  getFunctionIdGo a (a.parent tokIdx) (a.n + 1)

/-! ## Array/object literal recognizer (`maybe_parse_literal`, lines 186-259) -/

structure ArrayLiteral where
  function_id : Option Int
  variable_name : String
  value : List String
  deriving DecidableEq, Repr

structure ObjectLiteral where
  function_id : Option Int
  variable_name : String
  value : List (String × String)
  deriving DecidableEq, Repr

inductive Lit where
  | arr (v : ArrayLiteral)
  | obj (v : ObjectLiteral)
  deriving DecidableEq, Repr

/-- The `[`-literal scanning loop of `maybe_parse_literal` (lines 211-228):
walks `t` from the token after `[`; a string is collected (skipping one
following comma); anything else voids the whole match (`return None`,
modelled as `.ok none`); reaching the closer (or running off the stream, as
the Python loop condition `while t` allows) ends the scan. -/
def arrLoop (a : Arena) (stI : Nat) : Option Nat → List String → Nat →
    Except PyErr (Option (List String))
  | _, _, 0 => .error .assertionError
  | none, acc, _ + 1 => .ok (some acc)
  | some ti, acc, fuel + 1 =>
    if some ti = a.closed stI then .ok (some acc)
    else if a.typ ti = .TK_STRING then
      let acc2 := acc ++ [stripQuotes (a.txt ti)]
      if a.next ti = a.closed stI then .ok (some acc2)
      else
        let j :=
          match a.next ti with
          | some ni => if a.typ ni = .TK_COMMA then ni else ti
          | none => ti
        arrLoop a stI (a.next j) acc2 fuel
    else .ok none

/-- The `{`-literal scanning loop of `maybe_parse_literal` (lines 229-258):
bare-word (or reserved-word) key, `:`, string value, optional comma;
anything else voids the whole match. -/
def objLoop (a : Arena) (stI : Nat) : Option Nat → List (String × String) → Nat →
    Except PyErr (Option (List (String × String)))
  | _, _, 0 => .error .assertionError
  | none, acc, _ + 1 => .ok (some acc)
  | some ti, acc, fuel + 1 =>
    if some ti = a.closed stI then .ok (some acc)
    else
      match a.next ti with
      | none => .ok none
      | some n1 =>
        if (a.typ ti = .TK_WORD ∨ a.typ ti = .TK_RESERVED) ∧
            a.typ n1 = .TK_OPERATOR ∧ a.txt n1 = ":" then
          let key := a.txt ti
          match a.next n1 with
          | none => .error .attributeError
          | some vI =>
            if a.typ vI = .TK_STRING then
              let acc2 := dictInsert acc key (stripQuotes (a.txt vI))
              if a.next vI = a.closed stI then .ok (some acc2)
              else
                let j :=
                  match a.next vI with
                  | some ni => if a.typ ni = .TK_COMMA then ni else vI
                  | none => vI
                objLoop a stI (a.next j) acc2 fuel
            else .ok none
        else .ok none

/-- `maybe_parse_literal(eq_token)`: a `<word> = [...]` or `<word> = {...}`
assignment whose name is not `exports`/`seo` and whose literal is non-empty
yields an `ArrayLiteral`/`ObjectLiteral` when the matching loop accepts. -/
def maybeParseLiteral (a : Arena) (eqIdx : Nat) : Except PyErr (Option Lit) := do
  match a.prev eqIdx with
  | none => pure none
  | some nameI =>
    if a.typ nameI ≠ .TK_WORD then pure none
    else
      let name := a.txt nameI
      if name = "exports" ∨ name = "seo" then pure none
      else
        match a.next eqIdx with
        | none => pure none
        | some stI =>
          if a.next stI = a.closed stI then pure none
          else if a.typ stI = .TK_START_EXPR ∧ a.txt stI = "[" then do
            match ← arrLoop a stI (a.next stI) [] (a.n + 2) with
            | none => pure none
            | some items => do
              let fid ← getFunctionId a eqIdx
              pure (some (.arr ⟨fid, name, items⟩))
          else if a.typ stI = .TK_START_BLOCK ∧ a.txt stI = "\x7b" then do
            match ← objLoop a stI (a.next stI) [] (a.n + 2) with
            | none => pure none
            | some items => do
              let fid ← getFunctionId a eqIdx
              pure (some (.obj ⟨fid, name, items⟩))
          else pure none

/-! ## API call-site recognizer (`parse_api_url`, lines 109-156) -/

structure APIFunction where
  name : String
  args : List String
  body : String
  url : String
  method : String
  deriving DecidableEq, Repr

def nlString (n : Nat) : String := ⟨List.replicate n (Char.ofNat 10)⟩

/-- The body walk of `parse_api_url` (lines 133-137): concatenate
`'\n' * newlines + whitespace_before + text` from the function's `{` up to
(excluding) its closer; a `None` token before reaching the closer is an
attribute error, and matching `None` closers end the walk as in Python's
`!=` comparison. -/
def bodyWalk (a : Arena) (closedRef : Option Nat) : Option Nat → String → Nat →
    Except PyErr String
  | _, _, 0 => .error .assertionError
  | cur, acc, fuel + 1 =>
    if cur = closedRef then .ok acc
    else
      match cur with
      | none => .error .attributeError
      | some i =>
        bodyWalk a closedRef (a.next i)
          (acc ++ nlString (a.tok i).newlines ++ (a.tok i).wsBefore ++ a.txt i) fuel

/-- `parse_api_url(text_token, all_tokens)`: when the call's enclosing block
is preceded by `try`, build an `APIFunction` from the enclosing function
definition; otherwise return the bare URL string. -/
def parseApiUrl (a : Arena) (ti : Nat) : Except PyErr (APIFunction ⊕ String) := do
  let mas := a.parent ti
  let masI ← refGet mas
  let tbs := a.parent masI
  let tbsI ← refGet tbs
  let tbsPrevI ← refGet (a.prev tbsI)
  if a.txt tbsPrevI = "try" then do
    let fds := a.parent tbsI
    let fdsI ← refGet fds
    let body ← bodyWalk a (a.closed fdsI) (some fdsI) "" (a.n + 2)
    let faeI ← refGet (a.prev fdsI)
    let fab := a.opened faeI
    let fabI ← refGet fab
    let fnameI ← refGet (a.prev fabI)
    let args := ((List.range a.n).filter
      (fun j => a.parent j = some fabI ∧ a.typ j ≠ .TK_COMMA)).map (fun j => a.txt j)
    let methI ← refGet (a.prev masI)
    pure (.inl ⟨a.txt fnameI, args, body, stripQuotes (a.txt ti), a.txt methI⟩)
  else
    pure (.inr (stripQuotes (a.txt ti)))

/-! ## The per-file recognizer loop (`_find_interesting_things_in_js`,
lines 280-337) -/

structure Interesting where
  apiFunctions : List APIFunction
  otherApiUrls : List String
  staticUrls : List String
  jsons : List (Int × Json)
  otherUrls : List String
  arrays : List ArrayLiteral
  objects : List ObjectLiteral

/-- The loop's mutable locals: the seven result collections plus
`already_parsed` (a set of token positions).  Python's sets are modelled as
duplicate-free lists in insertion order; `jsons` is a dict. -/
structure LoopSt where
  apiFunctions : List APIFunction := []
  otherApiUrls : List String := []
  staticUrls : List String := []
  jsons : List (Int × Json) := []
  otherUrls : List String := []
  arrays : List ArrayLiteral := []
  objects : List ObjectLiteral := []
  ap : List Nat := []

/-- The `TK_STRING` branch of the loop (lines 297-311): static-URL prefix,
other-URL prefix (an `elif`), then the independent `/api/` check that calls
`parse_api_url`. -/
def stepString (a : Arena) (s : LoopSt) (i : Nat) : Except PyErr LoopSt :=
  if a.typ i ≠ .TK_STRING then .ok s
  else
    let text := stripQuotes (a.txt i)
    let s1 :=
      if pyStartsWith text "/_next/static/" || pyStartsWith text "_next/static" then
        { s with staticUrls := setAdd s.staticUrls (pyRemovePfx text "/"),
                 ap := setAdd s.ap i }
      else if pyStartsWith text "/_next" || pyStartsWith text "_next" ||
          pyStartsWith text "https://" || pyStartsWith text "http://" ||
          pyStartsWith text "ftp://" then
        { s with otherUrls := setAdd s.otherUrls (pyRemovePfx text "/"),
                 ap := setAdd s.ap i }
      else s
    if pyStartsWith text "/api/" then
      match parseApiUrl a i with
      | .error e => .error e
      | .ok (.inl f) =>
        .ok { s1 with apiFunctions := s1.apiFunctions ++ [f], ap := setAdd s1.ap i }
      | .ok (.inr _u) =>
        .ok { s1 with otherApiUrls := setAdd s1.otherApiUrls text, ap := setAdd s1.ap i }
    else .ok s1

/-- The `JSON`-word branch of the loop (lines 313-327): on success the
`JSON` and `parse` tokens join `already_parsed` and the decode is stored
under its owner id (`jsons[j[0]] = j[1]`, overwriting); `UnexpectedParseError`
and `NotParseableError` are caught (logged) and skip the site; any other
error propagates. -/
def stepJson (a : Arena) (s : LoopSt) (i : Nat) : Except PyErr LoopSt :=
  if a.typ i = .TK_WORD ∧ a.txt i = "JSON" then
    match a.next i with
    | none => .error .attributeError
    | some d =>
      match a.next d with
      | none => .error .attributeError
      | some p =>
        if a.txt p = "parse" then
          match parseJsonLiteral a i p with
          | .error .unexpectedParse => .ok s
          | .error .notParseable => .ok s
          | .error e => .error e
          | .ok kv =>
            .ok { s with ap := setAdd (setAdd s.ap i) p,
                         jsons := dictInsert s.jsons kv.1 kv.2 }
        else .ok s
  else .ok s

/-- The `TK_EQUALS` branch of the loop (lines 328-333). -/
def stepEquals (a : Arena) (s : LoopSt) (i : Nat) : Except PyErr LoopSt :=
  if a.typ i = .TK_EQUALS then
    match maybeParseLiteral a i with
    | .error e => .error e
    | .ok none => .ok s
    | .ok (some (.arr al)) => .ok { s with arrays := s.arrays ++ [al] }
    | .ok (some (.obj ol)) => .ok { s with objects := s.objects ++ [ol] }
  else .ok s

/-- One iteration of `for token in tokens`: skip members of
`already_parsed`, then the three type-dispatched branches in order. -/
def stepTok (a : Arena) (s : LoopSt) (i : Nat) : Except PyErr LoopSt :=
  if i ∈ s.ap then .ok s
  else
    match stepString a s i with
    | .error e => .error e
    | .ok s1 =>
      match stepJson a s1 i with
      | .error e => .error e
      | .ok s2 => stepEquals a s2 i

def runGo (a : Arena) : LoopSt → List Nat → Except PyErr LoopSt
  | s, [] => .ok s
  | s, i :: rest =>
    match stepTok a s i with
    | .error e => .error e
    | .ok s2 => runGo a s2 rest

def LoopSt.out (s : LoopSt) : Interesting :=
  ⟨s.apiFunctions, s.otherApiUrls, s.staticUrls, s.jsons, s.otherUrls, s.arrays,
    s.objects⟩

/-- `_find_interesting_things_in_js`: run the loop over every token in
stream order and package the collections (`tokenize_js` is called with
`unescape_strings: False`; the arena is its output). -/
def findInterestingThingsInJs (a : Arena) : Except PyErr Interesting :=
  match runGo a {} (List.range a.n) with
  | .error e => .error e
  | .ok s => .ok s.out

/-- The decode outcome the loop's `JSON`-branch reaches at position `i`, as
a pure observation of the stream (used to characterize the final `jsons`
dict): the branch triggers on a `JSON` word followed by a token and then a
`parse` token, and contributes exactly the successful `parse_json_literal`
results. -/
def siteRes (a : Arena) (i : Nat) : Option (Int × Json) :=
  if a.typ i = .TK_WORD ∧ a.txt i = "JSON" then
    match a.next i with
    | none => none
    | some d =>
      match a.next d with
      | none => none
      | some p =>
        if a.txt p = "parse" then (parseJsonLiteral a i p).toOption else none
  else none

/-- All successful inline-JSON decodes of a file, in stream order. -/
def jsonSites (a : Arena) : List (Int × Json) :=
  (List.range a.n).filterMap (siteRes a)

/-! ## Whole-run aggregation (`extractor.py`,
`InterestingThingsInAllFiles.combine` lines 45-55 and
`find_interesting_things_in_all_files` lines 63-85) -/

structure AllFiles where
  staticUrls : List (Nat × List String) := []
  apiFunctions : List (Nat × List APIFunction) := []
  otherApiUrls : List (Nat × List String) := []
  jsons : List (Nat × List (Int × Json)) := []
  otherUrls : List (Nat × List String) := []

/-- `combine(path, things)`: each non-empty collection is stored under the
file (files are identified by an opaque `Nat` id here; reading the file from
disk is elided). -/
def AllFiles.combine (st : AllFiles) (fid : Nat) (t : Interesting) : AllFiles :=
  let st1 := if t.staticUrls.isEmpty then st else
    { st with staticUrls := st.staticUrls ++ [(fid, t.staticUrls)] }
  let st2 := if t.apiFunctions.isEmpty then st1 else
    { st1 with apiFunctions := st1.apiFunctions ++ [(fid, t.apiFunctions)] }
  let st3 := if t.otherApiUrls.isEmpty then st2 else
    { st2 with otherApiUrls := st2.otherApiUrls ++ [(fid, t.otherApiUrls)] }
  let st4 := if t.jsons.isEmpty then st3 else
    { st3 with jsons := st3.jsons ++ [(fid, t.jsons)] }
  if t.otherUrls.isEmpty then st4 else
    { st4 with otherUrls := st4.otherUrls ++ [(fid, t.otherUrls)] }

/-- `find_interesting_things_in_all_files`: each file's result is awaited
inside the loop with no exception handling, so the first failing file's
error propagates out and aborts the aggregation.  `asyncio.as_completed`
yields results in completion order; the list order stands in for it (the
theorems below do not depend on which order is realized, only on the
propagation). -/
def findAllGo (st : AllFiles) : List (Nat × Arena) → Except PyErr AllFiles
  | [] => .ok st
  | (fid, a) :: rest =>
    match findInterestingThingsInJs a with
    | .error e => .error e
    | .ok things => findAllGo (st.combine fid things) rest

def findInterestingThingsInAllFiles (files : List (Nat × Arena)) :
    Except PyErr AllFiles :=
  findAllGo {} files

/-! ## Chunk-map resolver (`webpack.py`, `parse_webpack` lines 13-98) -/

/-- `PurePosixPath(root) / p`: joining an absolute path replaces the root
(pathlib); otherwise the relative path is appended.  (PurePosixPath's
normalization of duplicate slashes is not exercised by any claim.) -/
def pyPathJoin (root p : String) : String :=
  if pyStartsWith p "/" then p else root ++ p

/-- `_is_h_u_function(token)`: a `h` word followed by `.` and `u`. -/
def isHuFunction (a : Arena) (i : Nat) : Bool :=
  (a.typ i = .TK_WORD) && (a.txt i = "h") &&
    (match a.next i with
     | none => false
     | some ni =>
       (a.txt ni = ".") &&
         (match a.next ni with
          | none => false
          | some nni => a.txt nni = "u"))

/-- The value-assembly loop of `parse_webpack` (lines 62-70): advance
`value_token` until its successor is the `:` operator, skipping `+`
operators and appending either the key (for the parameter word `e`) or the
token's stripped text. -/
def wpValueLoop (a : Arena) (key : String) : Nat → String → Nat →
    Except PyErr (String × Nat)
  | _, _, 0 => .error .assertionError
  | vt, acc, fuel + 1 => do
    let ntI ← refGet (a.next vt)
    if a.typ ntI = .TK_OPERATOR ∧ a.txt ntI = ":" then .ok (acc, vt)
    else if a.typ ntI = .TK_OPERATOR ∧ a.txt ntI = "+" then wpValueLoop a key ntI acc fuel
    else
      wpValueLoop a key ntI
        (acc ++ (if a.typ ntI = .TK_WORD ∧ a.txt ntI = "e" then key
                 else stripQuotes (a.txt ntI))) fuel

/-- The ternary-chain scan of `parse_webpack` (lines 44-73): walk the
function body linearly; at each `<key> === e` pattern whose `?`-branch
starts with a string, assemble the value and record
`d[int(key)] = URLPath('_next/') / value`; remember the last `value_token`.
Returns (entries, last value_token reference). -/
def wpTernLoop (a : Arena) (endRef : Option Nat) :
    Option Nat → List (Int × String) → Option Nat → Nat →
    Except PyErr (List (Int × String) × Option Nat)
  | _, _, _, 0 => .error .assertionError
  | tok, d, lastVal, fuel + 1 =>
    if tok = endRef then .ok (d, lastVal)
    else
      match tok with
      | none => .error .attributeError
      | some t =>
        if a.typ t = .TK_WORD then
          match a.next t with
          | none => .error .attributeError
          | some n1 =>
            if a.typ n1 = .TK_OPERATOR ∧ a.txt n1 = "===" then
              match a.next n1 with
              | none => .error .attributeError
              | some n2 =>
                if a.typ n2 = .TK_WORD ∧ a.txt n2 = "e" then do
                  let key := a.txt t
                  let qmI ← refGet (a.next n2)
                  let vRef := a.next qmI
                  let vI ← refGet vRef
                  if a.typ vI = .TK_STRING then do
                    let (value, vtEnd) ← wpValueLoop a key vI (stripQuotes (a.txt vI)) (a.n + 2)
                    match pyIntParse key with
                    | none => .error .valueError
                    | some k => do
                      let tokNewI ← refGet (a.next vtEnd)
                      wpTernLoop a endRef (a.next tokNewI)
                        (dictInsert d k (pyPathJoin "_next/" value)) (some vtEnd) fuel
                  else
                    wpTernLoop a endRef (a.next t) d vRef fuel
                else wpTernLoop a endRef (a.next t) d lastVal fuel
            else wpTernLoop a endRef (a.next t) d lastVal fuel
        else wpTernLoop a endRef (a.next t) d lastVal fuel

/-- The scan for the `(` that opens the trailing dictionary (lines 78-79,
96). -/
def wpScanParen (a : Arena) (endRef : Option Nat) : Option Nat → Nat →
    Except PyErr (Option Nat)
  | _, 0 => .error .assertionError
  | tok, fuel + 1 =>
    if tok = endRef then .ok none
    else
      match tok with
      | none => .error .attributeError
      | some t =>
        if a.typ t = .TK_START_EXPR ∧ a.txt t = "(" then .ok (some t)
        else wpScanParen a endRef (a.next t) fuel

/-- The key-by-key parse of the trailing dictionary (lines 82-89): for each
`<key> : <value>` pair, record the fixed template
`_next/static/chunks/{key}.{value}.js`. -/
def wpDictLoop (a : Arena) (bdI : Nat) : Option Nat → List (Int × String) → Nat →
    Except PyErr (List (Int × String))
  | _, _, 0 => .error .assertionError
  | tok, d, fuel + 1 =>
    if tok = a.closed bdI then .ok d
    else do
      let tI ← refGet tok
      let ntI ← refGet (a.next tI)
      let colI ← refGet (a.next ntI)
      if a.typ colI = .TK_OPERATOR ∧ a.txt colI = ":" then do
        let key := a.txt ntI
        let vI ← refGet (a.next colI)
        let value := stripQuotes (a.txt vI)
        match pyIntParse key with
        | none => .error .valueError
        | some k =>
          wpDictLoop a bdI (a.next vI)
            (dictInsert d k ("_next/static/chunks/" ++ key ++ "." ++ value ++ ".js")) fuel
      else wpDictLoop a bdI (some ntI) d fuel

/-- The module-ID-to-path dict `d` that `parse_webpack` builds internally
(lines 42-96), merging the ternary-derived entries with the trailing
dictionary's entries. -/
def parseWebpackDict (a : Arena) : Except PyErr (List (Int × String)) := do
  match (List.range a.n).find? (isHuFunction a) with
  | none => .error .stopIteration
  | some hI => do
    let n1I ← refGet (a.next hI)
    let huI ← refGet (a.next n1I)
    let eqI ← refGet (a.next huI)
    let fsI ← refGet (a.next eqI)
    let fasI ← refGet (a.next fsI)
    match a.closed fasI with
    | none => .error .assertionError
    | some faeI => do
      let fbsI ← refGet (a.next faeI)
      let fbeRef := a.closed fbsI
      let funcBody := (List.range a.n).filter (fun j => a.parent j = some fbsI)
      match funcBody with
      | [] => .error .indexError
      | t0 :: _ => do
        let (d1, lastVal) ← wpTernLoop a fbeRef (some t0) [] none (a.n + 2)
        match lastVal with
        | none => .error .assertionError
        | some lv => do
          let l1I ← refGet (a.next lv)
          let ltcRef := a.next l1I
          match ← wpScanParen a (a.closed fbsI) ltcRef (a.n + 2) with
          | none => pure d1
          | some parenI => do
            let bdI ← refGet (a.next parenI)
            wpDictLoop a bdI (some parenI) d1 (a.n + 2)

/-- `parse_webpack`: the function's actual return value,
`tuple(d.values())` - the sequence of chunk paths with the module IDs
dropped. -/
def parseWebpack (a : Arena) : Except PyErr (List String) :=
  match parseWebpackDict a with
  | .error e => .error e
  | .ok d => .ok (d.map Prod.snd)

/-! ## Build-manifest resolver (`build_manifest.py`, `parse_build_manifest`
lines 16-64) -/

/-- `text.strip('"')`: only double quotes (the build manifest pass). -/
def stripDq (s : String) : String :=
  ⟨((s.data.dropWhile (fun c => c.toNat = 34)).reverse.dropWhile
    (fun c => c.toNat = 34)).reverse⟩

/-- One element of a page's asset list (line 61): a string literal's own
text, or the call-site argument positionally bound to the parameter of that
name (`args[variables.index(c.text)]` (sic), raising `ValueError` when the word is
not a parameter and `IndexError` when there are fewer arguments), normalized
with the `_next/` root via `_convert_path`. -/
def bmValue (params args : List String) (a : Arena) (j : Nat) : Except PyErr String :=
  if a.typ j = .TK_STRING then .ok (pyPathJoin "_next/" (stripDq (a.txt j)))
  else
    match params.findIdx? (fun v => v = a.txt j) with
    | none => .error .valueError
    | some ix =>
      match args.get? ix with
      | none => .error .indexError
      | some s => .ok (pyPathJoin "_next/" s)

/-- The per-route loop of `parse_build_manifest` (lines 55-63): for each
string key directly inside the returned object literal, collect the
children of the bracket two tokens later and resolve each element.  The
route key is stored as `URLPath(key)e - without the root prefix. -/
def bmEntryLoop (a : Arena) (params args : List String) :
    List Nat → List (String × List String) → Except PyErr (List (String × List String))
  | [], d => .ok d
  | j :: rest, d => do
    let key := stripDq (a.txt j)
    match a.next j with
    | none => .error .assertionError
    | some nj => do
      let startRef := a.next nj
      let children := (List.range a.n).filter
        (fun k => a.parent k = startRef ∧ a.typ k ≠ .TK_COMMA)
      let vals ← children.mapM (bmValue params args a)
      bmEntryLoop a params args rest (dictInsert d key vals)

/-- `parse_build_manifest` (`tokenize_js` is called with
`unescape_strings: True`; the arena is its output). -/
def parseBuildManifest (a : Arena) : Except PyErr (List (String × List String)) := do
  match (List.range a.n).find?
      (fun j => (a.typ j = .TK_WORD) && (a.txt j = "__BUILD_MANIFEST")) with
  | none => .error .stopIteration
  | some bmI =>
    match a.next bmI with
    | none => .error .assertionError
    | some n1 =>
      match a.next n1 with
      | none => .error .assertionError
      | some n2 => do
        let falsRef := a.next n2
        let params := ((List.range a.n).filter
          (fun j => a.parent j = falsRef ∧ a.typ j = .TK_WORD)).map (a.txt ·)
        let falsI ← refGet falsRef
        let cl1I ← refGet (a.closed falsI)
        let fbsRef := a.next cl1I
        let fbsI ← refGet fbsRef
        let cl2I ← refGet (a.closed fbsI)
        let fasRef := a.next cl2I
        let args := ((List.range a.n).filter
          (fun j => a.parent j = fasRef ∧ a.typ j = .TK_STRING)).map
          (fun j => stripDq (a.txt j))
        match (List.range a.n).find? (fun j =>
            (a.parent j = some fbsI) && (a.typ j = .TK_RESERVED) && (a.txt j = "return")) with
        | none => .error .stopIteration
        | some retI => do
          let rdsRef := a.next retI
          let returnToks := (List.range a.n).filter
            (fun j => a.parent j = rdsRef ∧ a.typ j = .TK_STRING)
          bmEntryLoop a params args returnToks []

/-! ## Localization-map resolver (`app.py`,
`parse_localizations_from_app` lines 19-61) and its caller
(`extractor.py`, `_extract_app` lines 94-123) -/

/-- The `next(...)` scan for the token whose previous tokens are `15288 :`
(lines 27-34); the generator's predicate itself dereferences
`t.previous.previous` and so can raise. -/
def appFindFnGo (a : Arena) : List Nat → Except PyErr Nat
  | [] => .error .stopIteration
  | j :: rest =>
    match a.prev j with
    | none => appFindFnGo a rest
    | some pv =>
      if a.typ pv = .TK_OPERATOR ∧ a.txt pv = ":" then
        match a.prev pv with
        | none => .error .attributeError
        | some pp =>
          if a.txt pp = "15288" then .ok j else appFindFnGo a rest
      else appFindFnGo a rest

/-- The `next(...)` scan for the `var r = ...` right-hand side inside the
function body (lines 43-49). -/
def appFindRGo (a : Arena) : List Nat → Except PyErr Nat
  | [] => .error .stopIteration
  | j :: rest => do
    let pvI ← refGet (a.prev j)
    if a.typ pvI = .TK_EQUALS then do
      let ppI ← refGet (a.prev pvI)
      if a.txt ppI = "r" then do
        let pppI ← refGet (a.prev ppI)
        if a.txt pppI = "var" then .ok j else appFindRGo a rest
      else appFindRGo a rest
    else appFindRGo a rest

/-- The source-text walk over the object literal, inclusive of its closer
(lines 50-55). -/
def appDictWalk (a : Arena) (closedRef : Option Nat) : Option Nat → String → Nat →
    Except PyErr String
  | _, _, 0 => .error .assertionError
  | tok, acc, fuel + 1 =>
    if tok = closedRef then
      match tok with
      | none => .error .attributeError
      | some t => .ok (acc ++ a.txt t)
    else
      match tok with
      | none => .error .attributeError
      | some t => appDictWalk a closedRef (a.next t) (acc ++ a.txt t) fuel

def cpsToString (l : List Nat) : String := ⟨l.map Char.ofNat⟩

/-- Validation of `dict[str, list[int]]` and the re-keying
`{(v[1], v[0]): PurePosixPath(k)}` (lines 57-61): `pydantic` rejects
non-integer list elements; a list shorter than two raises `IndexError`. -/
def appRekey : List (List Nat × Json) → List ((Int × Int) × String) →
    Except PyErr (List ((Int × Int) × String))
  | [], d => .ok d
  | (k, v) :: rest, d =>
    match v with
    | .arr xs =>
      match xs.mapM (fun x => match x with | .num n => some n | _ => none) with
      | none => .error .validationError
      | some ns =>
        match ns.get? 1, ns.get? 0 with
        | some n1, some n0 => appRekey rest (dictInsert d (n1, n0) (cpsToString k))
        | _, _ => .error .indexError
    | _ => .error .validationError

/-- `parse_localizations_from_app`. -/
def parseLocalizationsFromApp (a : Arena) : Except PyErr (List ((Int × Int) × String)) := do
  let fnI ← appFindFnGo a (List.range a.n)
  match a.next fnI with
  | none => .error .assertionError
  | some fasI =>
    match a.closed fasI with
    | none => .error .assertionError
    | some faeI => do
      let fbsRef := a.next faeI
      let functionBody := (List.range a.n).filter (fun j => a.parent j = fbsRef)
      let rI ← appFindRGo a functionBody
      let dictSource ← appDictWalk a (a.closed rI) (some rI) "" (a.n + 2)
      match pydanticFromJson (dictSource.data.map Char.toNat) with
      | .error _ => .error .validationError
      | .ok (.obj kvs) => appRekey kvs []
      | .ok _ => .error .validationError

/-- `_extract_app`: when no `_app` file path is known the missing map is
only logged (`None` is returned and downstream naming falls back); when a
file is found, `parse_localizations_from_app` runs with no exception
handling, so any of its errors propagates to the caller.  The JSON dump of
the mapping and the file-discovery glob are elided. -/
def extractApp (appArena : Option Arena) :
    Except PyErr (Option (List ((Int × Int) × String))) :=
  match appArena with
  | none => .ok none
  | some a =>
    match parseLocalizationsFromApp a with
    | .error e => .error e
    | .ok m => .ok (some m)

/-! ## Region grammars written from the claim's words (for claim C8)

These two definitions follow the claim/spec sentence "If the right-hand
side is a bracketed list of string literals only, emit an `ArrayLiteral`;
if it is a braced list of `bareword: "string"` pairs only, emit an
`ObjectLiteral`. Any non-string element anywhere in the literal voids the
match" - they describe the whole delimiter region and are compared against
the scanning loops of `maybe_parse_literal`. -/

mutual

/-- String elements, each pair of consecutive elements optionally separated
by one comma. -/
def specStrList : List Tok → Option (List String)
  | [] => some []
  | t :: rest =>
    if t.ttype = .TK_STRING then (specStrListSep rest).map (stripQuotes t.text :: ·)
    else none

/-- After an element: the region may end, continue with a separator comma,
or continue directly with the next string element. -/
def specStrListSep : List Tok → Option (List String)
  | [] => some []
  | c :: rest =>
    if c.ttype = .TK_COMMA then specStrList rest
    else if c.ttype = .TK_STRING then (specStrListSep rest).map (stripQuotes c.text :: ·)
    else none

end

def specPairHeadOk (k colon v : Tok) : Prop :=
  (k.ttype = .TK_WORD ∨ k.ttype = .TK_RESERVED) ∧ colon.ttype = .TK_OPERATOR ∧
    colon.text = ":" ∧ v.ttype = .TK_STRING

instance (k colon v : Tok) : Decidable (specPairHeadOk k colon v) := by
  unfold specPairHeadOk; infer_instance

mutual

/-- `bareword : "string"` pairs, each pair of consecutive entries optionally
separated by one comma. -/
def specObjPairs : List Tok → Option (List (String × String))
  | [] => some []
  | k :: colon :: v :: rest =>
    if specPairHeadOk k colon v then
      (specObjPairsSep rest).map ((k.text, stripQuotes v.text) :: ·)
    else none
  | _ => none

/-- After an entry: the region may end, continue with a separator comma, or
continue directly with the next entry. -/
def specObjPairsSep : List Tok → Option (List (String × String))
  | [] => some []
  | c :: rest =>
    if c.ttype = .TK_COMMA then specObjPairs rest
    else
      match rest with
      | colon :: v :: rest2 =>
        if specPairHeadOk c colon v then
          (specObjPairsSep rest2).map ((c.text, stripQuotes v.text) :: ·)
        else none
      | _ => none

end

/-- The tokens strictly between positions `lo` and `hi` of the stream. -/
def regionToks (a : Arena) (lo hi : Nat) : List Tok :=
  (List.range' (lo + 1) (hi - (lo + 1))).map a.tok

/-! ## Concrete token streams used by the claim theorems

Each arena is the `jsbeautifier` token stream of the JavaScript snippet
named in its doc comment (string-literal token text keeps its quotes, as the
tokenizer produces it; `\x7b`/`\x7d` denote braces). -/

def strTok (s : String) : Tok := ⟨.TK_STRING, s, 0, ""⟩

def wTok (s : String) : Tok := ⟨.TK_WORD, s, 0, ""⟩

def rTok (s : String) : Tok := ⟨.TK_RESERVED, s, 0, ""⟩

def opTok (s : String) : Tok := ⟨.TK_OPERATOR, s, 0, ""⟩

def dotTok : Tok := ⟨.TK_DOT, ".", 0, ""⟩

def equalsTok : Tok := ⟨.TK_EQUALS, "=", 0, ""⟩

def commaTok : Tok := ⟨.TK_COMMA, ",", 0, ""⟩

def sbTok : Tok := ⟨.TK_START_BLOCK, "\x7b", 0, ""⟩

def ebTok : Tok := ⟨.TK_END_BLOCK, "\x7d", 0, ""⟩

def seTok (s : String) : Tok := ⟨.TK_START_EXPR, s, 0, ""⟩

def eeTok (s : String) : Tok := ⟨.TK_END_EXPR, s, 0, ""⟩

def semiTok : Tok := ⟨.TK_SEMICOLON, ";", 0, ""⟩

/-- `JSON.parse(x)`: a call site whose argument is a variable. -/
def arenaC2w : Arena :=
  ⟨[wTok "JSON", dotTok, wTok "parse", seTok "(", wTok "x", eeTok ")", eofTok]⟩

/-- `function bar(x){try{d.Mb.get("/api/foo")}catch(o){}}` - the claim C3 /
spec section 8 example. -/
def arenaC3 : Arena := ⟨[rTok "function", wTok "bar", seTok "(", wTok "x", eeTok ")",
  sbTok, rTok "try", sbTok, wTok "d", dotTok, wTok "Mb", dotTok, wTok "get",
  seTok "(", strTok "\"/api/foo\"", eeTok ")", ebTok, rTok "catch", seTok "(",
  wTok "o", eeTok ")", sbTok, ebTok, ebTok, eofTok]⟩

/-- `42: function(e){ if(c){ JSON.parse("1") } }` - a `JSON.parse` site whose
nearest enclosing `<integer>: function(...)` pattern is one block further up
than the immediate parent context. -/
def arenaC4ce : Arena := ⟨[wTok "42", opTok ":", rTok "function", seTok "(", wTok "e",
  eeTok ")", sbTok, rTok "if", seTok "(", wTok "c", eeTok ")", sbTok, wTok "JSON",
  dotTok, wTok "parse", seTok "(", strTok "\"1\"", eeTok ")", ebTok, ebTok, eofTok]⟩

/-- `42: function(e,t,n){var r=JSON.parse("{\"a\":1}")}` - the spec section 8
inlined-JSON vector. -/
def arenaC4ok : Arena := ⟨[wTok "42", opTok ":", rTok "function", seTok "(", wTok "e",
  commaTok, wTok "t", commaTok, wTok "n", eeTok ")", sbTok, rTok "var", wTok "r",
  equalsTok, wTok "JSON", dotTok, wTok "parse", seTok "(",
  strTok "\"\x7b\\\"a\\\":1\x7d\"", eeTok ")", ebTok, eofTok]⟩

/-- `JSON.parse("1")` at top level (no enclosing block at all). -/
def arenaC4top : Arena := ⟨[wTok "JSON", dotTok, wTok "parse", seTok "(",
  strTok "\"1\"", eeTok ")", eofTok]⟩

/-- `f{ JSON.parse("1") }` - the token before the enclosing block is a plain
word, so it has no `opened` link. -/
def arenaC4w : Arena := ⟨[wTok "f", sbTok, wTok "JSON", dotTok, wTok "parse",
  seTok "(", strTok "\"1\"", eeTok ")", ebTok, eofTok]⟩

/-- A file whose extraction raises an uncaught error: the top-level string
`"/api/x"` makes `parse_api_url` dereference `None.parent`. -/
def arenaC5bad : Arena := ⟨[strTok "\"/api/x\"", eofTok]⟩

/-- A healthy file contributing one static URL: `"_next/static/img.png"`. -/
def arenaC5good : Arena := ⟨[strTok "\"_next/static/img.png\"", eofTok]⟩

/-- `h.u=function(e){return 7===e?"static/chunks/a"+e+".js":"static/chunks/"
+e+"."+({1:"x",2:"y"})[e]}` - a webpack chunk-loader with one ternary entry
(whose value concatenates `+`-joined parts and substitutes the parameter
`e`) and a two-entry trailing dictionary. -/
def arenaC6 : Arena := ⟨[wTok "h", dotTok, wTok "u", equalsTok, rTok "function",
  seTok "(", wTok "e", eeTok ")", sbTok, rTok "return", wTok "7", opTok "===",
  wTok "e", opTok "?", strTok "\"static/chunks/a\"", opTok "+", wTok "e", opTok "+",
  strTok "\".js\"", opTok ":", strTok "\"static/chunks/\"", opTok "+", wTok "e",
  opTok "+", strTok "\".\"", opTok "+", seTok "(", sbTok, wTok "1", opTok ":",
  strTok "\"x\"", commaTok, wTok "2", opTok ":", strTok "\"y\"", ebTok, eeTok ")",
  seTok "[", wTok "e", eeTok "]", ebTok, eofTok]⟩

/-- `h.u=function(e){return 7===e?"static/chunks/a.js":...}` - the ternary
value names no parameter, so the chunk path does not determine the module
id. -/
def arenaC6a : Arena := ⟨[wTok "h", dotTok, wTok "u", equalsTok, rTok "function",
  seTok "(", wTok "e", eeTok ")", sbTok, rTok "return", wTok "7", opTok "===",
  wTok "e", opTok "?", strTok "\"static/chunks/a.js\"", opTok ":",
  strTok "\"static/chunks/\"", opTok "+", wTok "e", opTok "+", strTok "\".\"",
  opTok "+", seTok "(", sbTok, wTok "1", opTok ":", strTok "\"x\"", ebTok,
  eeTok ")", seTok "[", wTok "e", eeTok "]", ebTok, eofTok]⟩

/-- `arenaC6a` with module id 9 instead of 7. -/
def arenaC6b : Arena := ⟨[wTok "h", dotTok, wTok "u", equalsTok, rTok "function",
  seTok "(", wTok "e", eeTok ")", sbTok, rTok "return", wTok "9", opTok "===",
  wTok "e", opTok "?", strTok "\"static/chunks/a.js\"", opTok ":",
  strTok "\"static/chunks/\"", opTok "+", wTok "e", opTok "+", strTok "\".\"",
  opTok "+", seTok "(", sbTok, wTok "1", opTok ":", strTok "\"x\"", ebTok,
  eeTok ")", seTok "[", wTok "e", eeTok "]", ebTok, eofTok]⟩

/-- `self.__BUILD_MANIFEST=function(a,b){return{"/x":[a,b]}}("c1.js","c2.js");`
- the claim C7 / spec section 8 build-manifest example (the IIFE in its
assignment form, which is the shape `parse_build_manifest` walks). -/
def arenaC7 : Arena := ⟨[wTok "self", dotTok, wTok "__BUILD_MANIFEST", equalsTok,
  rTok "function", seTok "(", wTok "a", commaTok, wTok "b", eeTok ")", sbTok,
  rTok "return", sbTok, strTok "\"/x\"", opTok ":", seTok "[", wTok "a", commaTok,
  wTok "b", eeTok "]", ebTok, ebTok, seTok "(", strTok "\"c1.js\"", commaTok,
  strTok "\"c2.js\"", eeTok ")", semiTok, eofTok]⟩

/-- `15288: function(e,t,n){ var r = {"./en-US/a.json": [3, 5]}; }` - an app
bundle containing the expected numbered function and its object-literal
declaration. -/
def arenaC9good : Arena := ⟨[wTok "15288", opTok ":", rTok "function", seTok "(",
  wTok "e", commaTok, wTok "t", commaTok, wTok "n", eeTok ")", sbTok, rTok "var",
  wTok "r", equalsTok, sbTok, strTok "\"./en-US/a.json\"", opTok ":", seTok "[",
  wTok "3", commaTok, wTok "5", eeTok "]", ebTok, semiTok, ebTok, eofTok]⟩

/-- `x = 1` - an app bundle without the expected `15288:` function. -/
def arenaC9bad : Arena := ⟨[wTok "x", equalsTok, wTok "1", eofTok]⟩


/-- Python-dict fold of key/value pairs with insert-overwrite semantics,
as `maybe_parse_literal`'s object loop accumulates `values[key] = value`. -/
def dictFold (pairs : List (String × String)) : List (String × String) :=
  pairs.foldl (fun d kv => dictInsert d kv.1 kv.2) []

/-- Token stream for `x = ["a","b"]` (witness for claim C8). -/
def arenaC8w : Arena :=
  ⟨[wTok "x", equalsTok, seTok "[", strTok "\"a\"", commaTok, strTok "\"b\"",
    eeTok "]", eofTok]⟩

/-- `1: function(e){JSON.parse("1");JSON.parse("2")}` - a stream with two
decodable JSON.parse sites owned by the same function id 1 (witness for
claim C10). -/
def arenaC10w : Arena :=
  ⟨[wTok "1", opTok ":", rTok "function", seTok "(", wTok "e", eeTok ")", sbTok,
    wTok "JSON", dotTok, wTok "parse", seTok "(", strTok "\"1\"", eeTok ")", semiTok,
    wTok "JSON", dotTok, wTok "parse", seTok "(", strTok "\"2\"", eeTok ")", ebTok,
    eofTok]⟩
end GSE

namespace GSE

theorem subHexEscapesF_nil : ∀ f, subHexEscapesF f [] = [] := by
  intro f; cases f <;> rfl

theorem collapseBackslashesF_nil : ∀ f, collapseBackslashesF f [] = [] := by
  intro f; cases f <;> rfl

theorem subHexEscapesF_fuel :
    ∀ f s, s.length ≤ f → subHexEscapesF f s = subHexEscapes s := by
  intro f
  induction f using Nat.strong_induction_on with
  | _ f ih =>
    intro s hs
    match f, s with
    | 0, s =>
      have h0 : s = [] := List.eq_nil_of_length_eq_zero (Nat.le_zero.mp hs)
      subst h0; rfl
    | g + 1, [] => rfl
    | g + 1, c :: rest =>
      simp only [List.length_cons] at hs
      show subHexEscapesF (g + 1) (c :: rest) = subHexEscapesF (rest.length + 1) (c :: rest)
      simp only [subHexEscapesF]
      by_cases hc : c = 92
      · simp only [if_pos hc]
        split
        · rename_i d1 d2 r
          simp only [List.length_cons] at hs ⊢
          split
          · split
            · rw [ih g (by omega) r (by omega), ih (r.length + 3) (by omega) r (by omega)]
            · rw [ih g (by omega) r (by omega), ih (r.length + 3) (by omega) r (by omega)]
          · rw [ih g (by omega) (120 :: d1 :: d2 :: r) (by simp; omega),
                ih (r.length + 3) (by omega) (120 :: d1 :: d2 :: r) (by simp)]
        · rename_i d1 d2 d3 d4 r
          simp only [List.length_cons] at hs ⊢
          split
          · split
            · rw [ih g (by omega) r (by omega), ih (r.length + 5) (by omega) r (by omega)]
            · rw [ih g (by omega) r (by omega), ih (r.length + 5) (by omega) r (by omega)]
          · rw [ih g (by omega) (117 :: d1 :: d2 :: d3 :: d4 :: r) (by simp; omega),
                ih (r.length + 5) (by omega) (117 :: d1 :: d2 :: d3 :: d4 :: r) (by simp)]
        · rw [ih g (by omega) rest (by omega), ih rest.length (by omega) rest (by omega)]
      · simp only [if_neg hc]
        rw [ih g (by omega) rest (by omega), ih rest.length (by omega) rest (by omega)]


theorem collapseBackslashesF_fuel :
    ∀ f s, s.length ≤ f → collapseBackslashesF f s = collapseBackslashes s := by
  intro f
  induction f using Nat.strong_induction_on with
  | _ f ih =>
    intro s hs
    match f, s with
    | 0, s =>
      have h0 : s = [] := List.eq_nil_of_length_eq_zero (Nat.le_zero.mp hs)
      subst h0; rfl
    | g + 1, [] => rfl
    | g + 1, c :: rest =>
      simp only [List.length_cons] at hs
      show collapseBackslashesF (g + 1) (c :: rest) =
        collapseBackslashesF (rest.length + 1) (c :: rest)
      simp only [collapseBackslashesF]
      by_cases hc : c = 92
      · simp only [if_pos hc]
        split
        · rename_i d r
          simp only [List.length_cons] at hs ⊢
          split
          · rw [ih g (by omega) (d :: r) (by simp; omega),
                ih (r.length + 1) (by omega) (d :: r) (by simp)]
          · rw [ih g (by omega) r (by omega), ih (r.length + 1) (by omega) r (by omega)]
        · rfl
      · simp only [if_neg hc]
        rw [ih g (by omega) rest (by omega), ih rest.length (by omega) rest (by omega)]

theorem subHexEscapes_cons_ne (c : Nat) (l : List Nat) (h : c ≠ 92) :
    subHexEscapes (c :: l) = c :: subHexEscapes l := by
  show subHexEscapesF (l.length + 1) (c :: l) = _
  simp only [subHexEscapesF, if_neg h]
  rfl

theorem subHexEscapes_append (pre l : List Nat) (h : 92 ∉ pre) :
    subHexEscapes (pre ++ l) = pre ++ subHexEscapes l := by
  induction pre with
  | nil => rfl
  | cons c p ihp =>
    have hc : c ≠ 92 := fun hh => h (hh ▸ List.mem_cons_self c p)
    have hp : 92 ∉ p := fun hh => h (List.mem_cons_of_mem c hh)
    simp only [List.cons_append, subHexEscapes_cons_ne c _ hc, ihp hp]

theorem subHexEscapes_surrogate (d1 d2 d3 d4 : Nat) (r : List Nat)
    (hd : (isHexDigitCp d1 && isHexDigitCp d2 && isHexDigitCp d3 && isHexDigitCp d4) = true)
    (hs : isSurrogate (hexQuad d1 d2 d3 d4) = true) :
    subHexEscapes (92 :: 117 :: d1 :: d2 :: d3 :: d4 :: r) =
      92 :: 92 :: 117 :: d1 :: d2 :: d3 :: d4 :: subHexEscapes r := by
  show subHexEscapesF (r.length + 6) _ = _
  rw [subHexEscapesF.eq_4, if_pos rfl, if_pos hd, if_pos hs,
    subHexEscapesF_fuel (r.length + 5) r (by omega)]

theorem collapseBackslashes_cons_ne (c : Nat) (l : List Nat) (h : c ≠ 92) :
    collapseBackslashes (c :: l) = c :: collapseBackslashes l := by
  show collapseBackslashesF (l.length + 1) (c :: l) = _
  simp only [collapseBackslashesF, if_neg h]
  rfl

theorem collapseBackslashes_pair (d : Nat) (l : List Nat) (h : d ≠ 10) :
    collapseBackslashes (92 :: d :: l) = d :: collapseBackslashes l := by
  show collapseBackslashesF (l.length + 2) _ = _
  simp only [collapseBackslashesF, if_neg h, if_true]
  rw [collapseBackslashesF_fuel (l.length + 1) l (by omega)]

theorem collapseBackslashes_append (pre l : List Nat) (h : 92 ∉ pre) :
    collapseBackslashes (pre ++ l) = pre ++ collapseBackslashes l := by
  induction pre with
  | nil => rfl
  | cons c p ihp =>
    have hc : c ≠ 92 := fun hh => h (hh ▸ List.mem_cons_self c p)
    have hp : 92 ∉ p := fun hh => h (List.mem_cons_of_mem c hh)
    simp only [List.cons_append, collapseBackslashes_cons_ne c _ hc, ihp hp]

theorem isHexDigitCp_ne_92 (d : Nat) (h : isHexDigitCp d = true) : d ≠ 92 := by
  simp only [isHexDigitCp, Bool.or_eq_true, Bool.and_eq_true, decide_eq_true_eq] at h
  omega

theorem mem_subHexEscapesF (f : Nat) :
    ∀ s c, c ∈ subHexEscapesF f s → isSurrogate c = true → c ∈ s := by
  induction f using Nat.strong_induction_on with
  | _ f ih =>
    intro s c
    match f, s with
    | 0, s => exact fun hm _ => hm
    | g + 1, [] => intro hm _; simp [subHexEscapesF] at hm
    | g + 1, c0 :: rest =>
      simp only [subHexEscapesF]
      by_cases hc : c0 = 92
      · rw [if_pos hc]
        subst hc
        split
        · rename_i d1 d2 r
          split
          · split
            · intro hm hsur
              simp only [List.mem_cons] at hm ⊢
              rcases hm with rfl | rfl | rfl | h | h | h
              · exact absurd hsur (by decide)
              · exact absurd hsur (by decide)
              · exact absurd hsur (by decide)
              · tauto
              · tauto
              · have := ih g (by omega) r c h hsur; tauto
            · rename_i hns
              intro hm hsur
              simp only [List.mem_cons] at hm ⊢
              rcases hm with rfl | h
              · exact absurd hsur hns
              · have := ih g (by omega) r c h hsur; tauto
          · intro hm hsur
            simp only [List.mem_cons] at hm ⊢
            rcases hm with rfl | h
            · exact absurd hsur (by decide)
            · have := ih g (by omega) _ c h hsur
              simp only [List.mem_cons] at this; tauto
        · rename_i d1 d2 d3 d4 r
          split
          · split
            · intro hm hsur
              simp only [List.mem_cons] at hm ⊢
              rcases hm with rfl | rfl | rfl | h | h | h | h | h
              · exact absurd hsur (by decide)
              · exact absurd hsur (by decide)
              · exact absurd hsur (by decide)
              · tauto
              · tauto
              · tauto
              · tauto
              · have := ih g (by omega) r c h hsur; tauto
            · rename_i hns
              intro hm hsur
              simp only [List.mem_cons] at hm ⊢
              rcases hm with rfl | h
              · exact absurd hsur hns
              · have := ih g (by omega) r c h hsur; tauto
          · intro hm hsur
            simp only [List.mem_cons] at hm ⊢
            rcases hm with rfl | h
            · exact absurd hsur (by decide)
            · have := ih g (by omega) _ c h hsur
              simp only [List.mem_cons] at this; tauto
        · intro hm hsur
          simp only [List.mem_cons] at hm ⊢
          rcases hm with rfl | h
          · exact absurd hsur (by decide)
          · have := ih g (by omega) _ c h hsur; tauto
      · rw [if_neg hc]
        intro hm hsur
        simp only [List.mem_cons] at hm ⊢
        rcases hm with rfl | h
        · tauto
        · have := ih g (by omega) rest c h hsur; tauto

theorem mem_collapseBackslashesF (f : Nat) :
    ∀ s c, c ∈ collapseBackslashesF f s → c ∈ s := by
  induction f using Nat.strong_induction_on with
  | _ f ih =>
    intro s c
    match f, s with
    | 0, s => exact fun hm => hm
    | g + 1, [] => intro hm; simp [collapseBackslashesF] at hm
    | g + 1, c0 :: rest =>
      simp only [collapseBackslashesF]
      by_cases hc : c0 = 92
      · rw [if_pos hc]
        subst hc
        split
        · rename_i d r
          split
          · intro hm
            simp only [List.mem_cons] at hm ⊢
            rcases hm with rfl | h
            · tauto
            · have := ih g (by omega) _ c h
              simp only [List.mem_cons] at this; tauto
          · intro hm
            simp only [List.mem_cons] at hm ⊢
            rcases hm with rfl | h
            · tauto
            · have := ih g (by omega) r c h; tauto
        · intro hm
          simp only [List.mem_cons] at hm ⊢
          rcases hm with rfl | h
          · tauto
          · simp at h
      · rw [if_neg hc]
        intro hm
        simp only [List.mem_cons] at hm ⊢
        rcases hm with rfl | h
        · tauto
        · have := ih g (by omega) rest c h; tauto

theorem mem_unescapedForJson (s : List Nat) (c : Nat)
    (hm : c ∈ unescapedForJson s) (hsur : isSurrogate c = true) : c ∈ s :=
  mem_subHexEscapesF _ _ c
    (mem_collapseBackslashesF _ _ c hm) hsur

theorem hexVal_lt_16 (d : Nat) (h : isHexDigitCp d = true) : hexVal d < 16 := by
  simp only [isHexDigitCp, Bool.or_eq_true, Bool.and_eq_true, decide_eq_true_eq] at h
  unfold hexVal
  split_ifs <;> omega

theorem subHexF_step_catch (f c2 : Nat) (l : List Nat) (h120 : c2 ≠ 120) (h117 : c2 ≠ 117) :
    subHexEscapesF (f + 1) (92 :: c2 :: l) = 92 :: subHexEscapesF f (c2 :: l) := by
  rw [subHexEscapesF]
  · rw [if_pos rfl]
  · intro d1 d2 r hh
    injection hh with h1
    exact h120 h1
  · intro d1 d2 d3 d4 r hh
    injection hh with h1
    exact h117 h1

theorem subHexEscapes_append_bs (Y : List Nat) :
    ∀ n pre, pre.length ≤ n →
      subHexEscapes (pre ++ 92 :: Y) = subHexEscapes pre ++ subHexEscapes (92 :: Y) := by
  intro n
  induction n using Nat.strong_induction_on with
  | _ n ih =>
    intro pre hlen
    match pre with
    | [] => rfl
    | c :: p =>
      simp only [List.length_cons] at hlen
      by_cases hc : c = 92
      case neg =>
        rw [show (c :: p) ++ 92 :: Y = c :: (p ++ 92 :: Y) from rfl,
          subHexEscapes_cons_ne c _ hc, subHexEscapes_cons_ne c p hc,
          ih p.length (by omega) p le_rfl, List.cons_append]
      case pos =>
        subst hc
        have h92 : isHexDigitCp 92 = false := rfl
        cases p with
        | nil => rfl
        | cons c2 p2 =>
          by_cases h120 : c2 = 120
          · subst h120
            cases p2 with
            | nil =>
              cases Y with
              | nil => rfl
              | cons y Y2 =>
                rw [show subHexEscapes ((92 :: 120 :: []) ++ 92 :: y :: Y2) =
                      92 :: subHexEscapes ((120 :: []) ++ 92 :: y :: Y2) from rfl,
                  show subHexEscapes (92 :: 120 :: []) =
                      92 :: subHexEscapes (120 :: []) from rfl,
                  ih 1 (by simp only [List.length_cons, List.length_nil] at hlen ⊢; omega) (120 :: []) (by simp), List.cons_append]
            | cons a p3 =>
              cases p3 with
              | nil =>
                have hstepC : subHexEscapes ((92 :: 120 :: a :: []) ++ 92 :: Y) =
                    92 :: subHexEscapes ((120 :: a :: []) ++ 92 :: Y) := by
                  show subHexEscapesF (((120 :: a :: []) ++ 92 :: Y).length + 1)
                      (92 :: 120 :: a :: 92 :: Y) = _
                  rw [subHexEscapesF.eq_3, if_pos rfl, if_neg (by simp [h92])]
                  rfl
                rw [hstepC,
                  show subHexEscapes (92 :: 120 :: a :: []) =
                    92 :: subHexEscapes (120 :: a :: []) from rfl,
                  ih 2 (by simp only [List.length_cons, List.length_nil] at hlen ⊢; omega) (120 :: a :: []) (by simp), List.cons_append]
              | cons b p4 =>
                by_cases hG : (isHexDigitCp a && isHexDigitCp b) = true
                · by_cases hS : isSurrogate (hexPair a b) = true
                  · have hstepC : subHexEscapes ((92 :: 120 :: a :: b :: p4) ++ 92 :: Y) =
                        92 :: 92 :: 120 :: a :: b :: subHexEscapes (p4 ++ 92 :: Y) := by
                      show subHexEscapesF ((p4 ++ 92 :: Y).length + 4)
                          (92 :: 120 :: a :: b :: (p4 ++ 92 :: Y)) = _
                      rw [subHexEscapesF.eq_3, if_pos rfl, if_pos hG, if_pos hS,
                        subHexEscapesF_fuel ((p4 ++ 92 :: Y).length + 3) (p4 ++ 92 :: Y)
                          (by omega)]
                    have hstepS : subHexEscapes (92 :: 120 :: a :: b :: p4) =
                        92 :: 92 :: 120 :: a :: b :: subHexEscapes p4 := by
                      show subHexEscapesF (p4.length + 4) (92 :: 120 :: a :: b :: p4) = _
                      rw [subHexEscapesF.eq_3, if_pos rfl, if_pos hG, if_pos hS,
                        subHexEscapesF_fuel (p4.length + 3) p4 (by omega)]
                    rw [hstepC, hstepS, ih p4.length (by simp only [List.length_cons, List.length_nil] at hlen ⊢; omega) p4 le_rfl]
                    simp
                  · have hstepC : subHexEscapes ((92 :: 120 :: a :: b :: p4) ++ 92 :: Y) =
                        hexPair a b :: subHexEscapes (p4 ++ 92 :: Y) := by
                      show subHexEscapesF ((p4 ++ 92 :: Y).length + 4)
                          (92 :: 120 :: a :: b :: (p4 ++ 92 :: Y)) = _
                      rw [subHexEscapesF.eq_3, if_pos rfl, if_pos hG, if_neg hS,
                        subHexEscapesF_fuel ((p4 ++ 92 :: Y).length + 3) (p4 ++ 92 :: Y)
                          (by omega)]
                    have hstepS : subHexEscapes (92 :: 120 :: a :: b :: p4) =
                        hexPair a b :: subHexEscapes p4 := by
                      show subHexEscapesF (p4.length + 4) (92 :: 120 :: a :: b :: p4) = _
                      rw [subHexEscapesF.eq_3, if_pos rfl, if_pos hG, if_neg hS,
                        subHexEscapesF_fuel (p4.length + 3) p4 (by omega)]
                    rw [hstepC, hstepS, ih p4.length (by simp only [List.length_cons, List.length_nil] at hlen ⊢; omega) p4 le_rfl]
                    simp
                · have hstepC : subHexEscapes ((92 :: 120 :: a :: b :: p4) ++ 92 :: Y) =
                      92 :: subHexEscapes ((120 :: a :: b :: p4) ++ 92 :: Y) := by
                    show subHexEscapesF (((120 :: a :: b :: p4) ++ 92 :: Y).length + 1)
                        (92 :: 120 :: a :: b :: (p4 ++ 92 :: Y)) = _
                    rw [subHexEscapesF.eq_3, if_pos rfl, if_neg hG]
                    rfl
                  have hstepS : subHexEscapes (92 :: 120 :: a :: b :: p4) =
                      92 :: subHexEscapes (120 :: a :: b :: p4) := by
                    show subHexEscapesF ((120 :: a :: b :: p4).length + 1)
                        (92 :: 120 :: a :: b :: p4) = _
                    rw [subHexEscapesF.eq_3, if_pos rfl, if_neg hG]
                    rfl
                  rw [hstepC, hstepS, ih (120 :: a :: b :: p4).length (by simp only [List.length_cons, List.length_nil] at hlen ⊢; omega)
                    (120 :: a :: b :: p4) le_rfl, List.cons_append]
          · by_cases h117 : c2 = 117
            · subst h117
              cases p2 with
              | nil =>
                cases Y with
                | nil => rfl
                | cons y1 Y2 =>
                  cases Y2 with
                  | nil => rfl
                  | cons y2 Y3 =>
                    cases Y3 with
                    | nil => rfl
                    | cons y3 Y4 =>
                      rw [show subHexEscapes ((92 :: 117 :: []) ++ 92 :: y1 :: y2 :: y3 :: Y4) =
                            92 :: subHexEscapes ((117 :: []) ++ 92 :: y1 :: y2 :: y3 :: Y4)
                          from rfl,
                        show subHexEscapes (92 :: 117 :: []) =
                            92 :: subHexEscapes (117 :: []) from rfl,
                        ih 1 (by simp only [List.length_cons, List.length_nil] at hlen ⊢; omega) (117 :: []) (by simp), List.cons_append]
              | cons a p3 =>
                cases p3 with
                | nil =>
                  have hstepS : subHexEscapes (92 :: 117 :: a :: []) =
                      92 :: subHexEscapes (117 :: a :: []) := rfl
                  have hstepC : subHexEscapes ((92 :: 117 :: a :: []) ++ 92 :: Y) =
                      92 :: subHexEscapes ((117 :: a :: []) ++ 92 :: Y) := by
                    cases Y with
                    | nil => rfl
                    | cons y1 Y2 =>
                      cases Y2 with
                      | nil => rfl
                      | cons y2 Y3 =>
                        show subHexEscapesF
                            (((117 :: a :: []) ++ 92 :: y1 :: y2 :: Y3).length + 1)
                            (92 :: 117 :: a :: 92 :: y1 :: y2 :: Y3) = _
                        rw [subHexEscapesF.eq_4, if_pos rfl, if_neg (by simp [h92])]
                        rfl
                  rw [hstepC, hstepS, ih 2 (by simp only [List.length_cons, List.length_nil] at hlen ⊢; omega) (117 :: a :: []) (by simp),
                    List.cons_append]
                | cons b p4 =>
                  cases p4 with
                  | nil =>
                    have hstepS : subHexEscapes (92 :: 117 :: a :: b :: []) =
                        92 :: subHexEscapes (117 :: a :: b :: []) := rfl
                    have hstepC : subHexEscapes ((92 :: 117 :: a :: b :: []) ++ 92 :: Y) =
                        92 :: subHexEscapes ((117 :: a :: b :: []) ++ 92 :: Y) := by
                      cases Y with
                      | nil => rfl
                      | cons y1 Y2 =>
                        show subHexEscapesF
                            (((117 :: a :: b :: []) ++ 92 :: y1 :: Y2).length + 1)
                            (92 :: 117 :: a :: b :: 92 :: y1 :: Y2) = _
                        rw [subHexEscapesF.eq_4, if_pos rfl, if_neg (by simp [h92])]
                        rfl
                    rw [hstepC, hstepS, ih 3 (by simp only [List.length_cons, List.length_nil] at hlen ⊢; omega) (117 :: a :: b :: []) (by simp),
                      List.cons_append]
                  | cons c3 p5 =>
                    cases p5 with
                    | nil =>
                      have hstepS : subHexEscapes (92 :: 117 :: a :: b :: c3 :: []) =
                          92 :: subHexEscapes (117 :: a :: b :: c3 :: []) := rfl
                      have hstepC :
                          subHexEscapes ((92 :: 117 :: a :: b :: c3 :: []) ++ 92 :: Y) =
                          92 :: subHexEscapes ((117 :: a :: b :: c3 :: []) ++ 92 :: Y) := by
                        show subHexEscapesF
                            (((117 :: a :: b :: c3 :: []) ++ 92 :: Y).length + 1)
                            (92 :: 117 :: a :: b :: c3 :: 92 :: Y) = _
                        rw [subHexEscapesF.eq_4, if_pos rfl, if_neg (by simp [h92])]
                        rfl
                      rw [hstepC, hstepS, ih 4 (by simp only [List.length_cons, List.length_nil] at hlen ⊢; omega) (117 :: a :: b :: c3 :: [])
                        (by simp), List.cons_append]
                    | cons d4v p6 =>
                      by_cases hG : (isHexDigitCp a && isHexDigitCp b && isHexDigitCp c3 &&
                          isHexDigitCp d4v) = true
                      · by_cases hS : isSurrogate (hexQuad a b c3 d4v) = true
                        · have hstepC : subHexEscapes
                              ((92 :: 117 :: a :: b :: c3 :: d4v :: p6) ++ 92 :: Y) =
                              92 :: 92 :: 117 :: a :: b :: c3 :: d4v ::
                                subHexEscapes (p6 ++ 92 :: Y) := by
                            show subHexEscapesF ((p6 ++ 92 :: Y).length + 6)
                                (92 :: 117 :: a :: b :: c3 :: d4v :: (p6 ++ 92 :: Y)) = _
                            rw [subHexEscapesF.eq_4, if_pos rfl, if_pos hG, if_pos hS,
                              subHexEscapesF_fuel ((p6 ++ 92 :: Y).length + 5)
                                (p6 ++ 92 :: Y) (by omega)]
                          have hstepS : subHexEscapes (92 :: 117 :: a :: b :: c3 :: d4v :: p6) =
                              92 :: 92 :: 117 :: a :: b :: c3 :: d4v :: subHexEscapes p6 := by
                            show subHexEscapesF (p6.length + 6)
                                (92 :: 117 :: a :: b :: c3 :: d4v :: p6) = _
                            rw [subHexEscapesF.eq_4, if_pos rfl, if_pos hG, if_pos hS,
                              subHexEscapesF_fuel (p6.length + 5) p6 (by omega)]
                          rw [hstepC, hstepS, ih p6.length (by simp only [List.length_cons, List.length_nil] at hlen ⊢; omega) p6 le_rfl]
                          simp
                        · have hstepC : subHexEscapes
                              ((92 :: 117 :: a :: b :: c3 :: d4v :: p6) ++ 92 :: Y) =
                              hexQuad a b c3 d4v :: subHexEscapes (p6 ++ 92 :: Y) := by
                            show subHexEscapesF ((p6 ++ 92 :: Y).length + 6)
                                (92 :: 117 :: a :: b :: c3 :: d4v :: (p6 ++ 92 :: Y)) = _
                            rw [subHexEscapesF.eq_4, if_pos rfl, if_pos hG, if_neg hS,
                              subHexEscapesF_fuel ((p6 ++ 92 :: Y).length + 5)
                                (p6 ++ 92 :: Y) (by omega)]
                          have hstepS : subHexEscapes (92 :: 117 :: a :: b :: c3 :: d4v :: p6) =
                              hexQuad a b c3 d4v :: subHexEscapes p6 := by
                            show subHexEscapesF (p6.length + 6)
                                (92 :: 117 :: a :: b :: c3 :: d4v :: p6) = _
                            rw [subHexEscapesF.eq_4, if_pos rfl, if_pos hG, if_neg hS,
                              subHexEscapesF_fuel (p6.length + 5) p6 (by omega)]
                          rw [hstepC, hstepS, ih p6.length (by simp only [List.length_cons, List.length_nil] at hlen ⊢; omega) p6 le_rfl]
                          simp
                      · have hstepC : subHexEscapes
                            ((92 :: 117 :: a :: b :: c3 :: d4v :: p6) ++ 92 :: Y) =
                            92 :: subHexEscapes ((117 :: a :: b :: c3 :: d4v :: p6) ++
                              92 :: Y) := by
                          show subHexEscapesF
                              (((117 :: a :: b :: c3 :: d4v :: p6) ++ 92 :: Y).length + 1)
                              (92 :: 117 :: a :: b :: c3 :: d4v :: (p6 ++ 92 :: Y)) = _
                          rw [subHexEscapesF.eq_4, if_pos rfl, if_neg hG]
                          rfl
                        have hstepS : subHexEscapes (92 :: 117 :: a :: b :: c3 :: d4v :: p6) =
                            92 :: subHexEscapes (117 :: a :: b :: c3 :: d4v :: p6) := by
                          show subHexEscapesF ((117 :: a :: b :: c3 :: d4v :: p6).length + 1)
                              (92 :: 117 :: a :: b :: c3 :: d4v :: p6) = _
                          rw [subHexEscapesF.eq_4, if_pos rfl, if_neg hG]
                          rfl
                        rw [hstepC, hstepS, ih (117 :: a :: b :: c3 :: d4v :: p6).length
                          (by simp only [List.length_cons, List.length_nil] at hlen ⊢; omega) (117 :: a :: b :: c3 :: d4v :: p6) le_rfl,
                          List.cons_append]
            · have hstepC : subHexEscapes ((92 :: c2 :: p2) ++ 92 :: Y) =
                  92 :: subHexEscapes ((c2 :: p2) ++ 92 :: Y) := by
                show subHexEscapesF ((p2 ++ 92 :: Y).length + 2)
                    (92 :: c2 :: (p2 ++ 92 :: Y)) = _
                exact subHexF_step_catch _ _ _ h120 h117
              have hstepS : subHexEscapes (92 :: c2 :: p2) =
                  92 :: subHexEscapes (c2 :: p2) := by
                show subHexEscapesF (p2.length + 2) (92 :: c2 :: p2) = _
                exact subHexF_step_catch _ _ _ h120 h117
              rw [hstepC, hstepS, ih (c2 :: p2).length (by simp only [List.length_cons, List.length_nil] at hlen ⊢; omega) (c2 :: p2) le_rfl,
                List.cons_append]


theorem isHexDigitCp_ne_10 (d : Nat) (h : isHexDigitCp d = true) : d ≠ 10 := by
  simp only [isHexDigitCp, Bool.or_eq_true, Bool.and_eq_true, decide_eq_true_eq] at h
  omega

theorem collapseBackslashes_escape (d1 d2 d3 d4 : Nat)
    (hd : (isHexDigitCp d1 && isHexDigitCp d2 && isHexDigitCp d3 && isHexDigitCp d4) = true)
    (S : List Nat) :
    ∀ n P, P.length ≤ n →
    ∃ C, collapseBackslashes (P ++ 92 :: 92 :: 117 :: d1 :: d2 :: d3 :: d4 :: S) =
        C ++ 92 :: 117 :: d1 :: d2 :: d3 :: d4 :: collapseBackslashes S ∧
      (C = collapseBackslashes P ∨ C ++ [92] = collapseBackslashes P) := by
  have hd4 : (isHexDigitCp d1 = true ∧ isHexDigitCp d2 = true) ∧
      isHexDigitCp d3 = true ∧ isHexDigitCp d4 = true := by
    simp only [Bool.and_eq_true] at hd
    exact ⟨⟨hd.1.1.1, hd.1.1.2⟩, hd.1.2, hd.2⟩
  obtain ⟨⟨h1, h2⟩, h3, h4⟩ := hd4
  intro n
  induction n using Nat.strong_induction_on with
  | _ n ih =>
    intro P hlen
    match P with
    | [] =>
      refine ⟨[], ?_, Or.inl rfl⟩
      show collapseBackslashes (92 :: 92 :: 117 :: d1 :: d2 :: d3 :: d4 :: S) = _
      rw [collapseBackslashes_pair 92 _ (by omega),
        collapseBackslashes_cons_ne 117 _ (by omega),
        collapseBackslashes_cons_ne d1 _ (isHexDigitCp_ne_92 _ h1),
        collapseBackslashes_cons_ne d2 _ (isHexDigitCp_ne_92 _ h2),
        collapseBackslashes_cons_ne d3 _ (isHexDigitCp_ne_92 _ h3),
        collapseBackslashes_cons_ne d4 _ (isHexDigitCp_ne_92 _ h4)]
      rfl
    | c :: P1 =>
      simp only [List.length_cons] at hlen
      by_cases hc : c = 92
      case neg =>
        obtain ⟨C1, hC1, hdis1⟩ := ih P1.length (by omega) P1 le_rfl
        refine ⟨c :: C1, ?_, ?_⟩
        · rw [show ((c :: P1) ++ 92 :: 92 :: 117 :: d1 :: d2 :: d3 :: d4 :: S) =
              c :: (P1 ++ 92 :: 92 :: 117 :: d1 :: d2 :: d3 :: d4 :: S) from rfl,
            collapseBackslashes_cons_ne c _ hc, hC1]
          rfl
        · rw [collapseBackslashes_cons_ne c P1 hc]
          rcases hdis1 with h | h
          · exact Or.inl (by rw [h])
          · refine Or.inr ?_
            rw [← h]
            rfl
      case pos =>
        subst hc
        match P1 with
        | [] =>
          refine ⟨[], ?_, Or.inr rfl⟩
          show collapseBackslashes
            (92 :: 92 :: 92 :: 117 :: d1 :: d2 :: d3 :: d4 :: S) = _
          rw [collapseBackslashes_pair 92 _ (by omega),
            collapseBackslashes_pair 117 _ (by omega),
            collapseBackslashes_cons_ne d1 _ (isHexDigitCp_ne_92 _ h1),
            collapseBackslashes_cons_ne d2 _ (isHexDigitCp_ne_92 _ h2),
            collapseBackslashes_cons_ne d3 _ (isHexDigitCp_ne_92 _ h3),
            collapseBackslashes_cons_ne d4 _ (isHexDigitCp_ne_92 _ h4)]
          rfl
        | d :: P2 =>
          by_cases hd10 : d = 10
          · subst hd10
            obtain ⟨C1, hC1, hdis1⟩ := ih (P2.length + 1)
              (by simp only [List.length_cons] at hlen; omega) (10 :: P2) (by simp)
            refine ⟨92 :: C1, ?_, ?_⟩
            · rw [show ((92 :: 10 :: P2) ++ 92 :: 92 :: 117 :: d1 :: d2 :: d3 :: d4 :: S) =
                  92 :: 10 :: (P2 ++ 92 :: 92 :: 117 :: d1 :: d2 :: d3 :: d4 :: S) from rfl,
                show collapseBackslashes (92 :: 10 ::
                    (P2 ++ 92 :: 92 :: 117 :: d1 :: d2 :: d3 :: d4 :: S)) =
                  92 :: collapseBackslashes (10 ::
                    (P2 ++ 92 :: 92 :: 117 :: d1 :: d2 :: d3 :: d4 :: S)) from rfl]
              rw [show (10 :: (P2 ++ 92 :: 92 :: 117 :: d1 :: d2 :: d3 :: d4 :: S)) =
                  ((10 :: P2) ++ 92 :: 92 :: 117 :: d1 :: d2 :: d3 :: d4 :: S) from rfl,
                hC1]
              rfl
            · have hP : collapseBackslashes (92 :: 10 :: P2) =
                  92 :: collapseBackslashes (10 :: P2) := rfl
              rcases hdis1 with h | h
              · exact Or.inl (by rw [hP, h])
              · refine Or.inr ?_
                rw [hP, ← h]
                rfl
          · obtain ⟨C1, hC1, hdis1⟩ := ih P2.length
              (by simp only [List.length_cons] at hlen; omega) P2 le_rfl
            refine ⟨d :: C1, ?_, ?_⟩
            · rw [show ((92 :: d :: P2) ++ 92 :: 92 :: 117 :: d1 :: d2 :: d3 :: d4 :: S) =
                  92 :: d :: (P2 ++ 92 :: 92 :: 117 :: d1 :: d2 :: d3 :: d4 :: S) from rfl,
                collapseBackslashes_pair d _ hd10, hC1]
              rfl
            · rw [collapseBackslashes_pair d P2 hd10]
              rcases hdis1 with h | h
              · exact Or.inl (by rw [h])
              · refine Or.inr ?_
                rw [← h]
                rfl

/-- Claim C1: in the escape-aware JSON decoder (`_unescape_and_parse_json`),
every `\uHHHH` escape whose code point lies in the UTF-16 surrogate range
0xD800-0xDFFF is left textually intact by the composition of the hex-escape
substitution pass and the backslash-collapsing pass, for EVERY input: the
substitution pass doubles the escape's backslash (and is fully compositional
at that backslash: no match can straddle it, since a backslash is neither a
hex digit nor `x`/`u`), and the collapsing pass restores it, so the output is
`C ++ \uHHHH ++ <decoded rest>` where `C` is the decoded prefix - exactly it,
or it minus a trailing backslash that the collapsing pass paired with the
doubled one (first conjunct; the second conjunct specializes to
backslash-free prefixes, where the prefix passes through verbatim). A `\xHH`
escape can never denote a surrogate because two hex digits reach at most
0xFF (third conjunct). No surrogate code point ever appears raw in the
decoder's output unless it was already raw in the input (fourth conjunct). -/
theorem claimC1_surrogate_escapes_intact :
    (∀ pre d1 d2 d3 d4 rest,
        (isHexDigitCp d1 && isHexDigitCp d2 && isHexDigitCp d3 && isHexDigitCp d4) = true →
        isSurrogate (hexQuad d1 d2 d3 d4) = true →
        ∃ C, unescapedForJson (pre ++ 92 :: 117 :: d1 :: d2 :: d3 :: d4 :: rest) =
            C ++ 92 :: 117 :: d1 :: d2 :: d3 :: d4 :: unescapedForJson rest ∧
          (C = unescapedForJson pre ∨ C ++ [92] = unescapedForJson pre))
    ∧ (∀ pre d1 d2 d3 d4 rest,
        92 ∉ pre →
        (isHexDigitCp d1 && isHexDigitCp d2 && isHexDigitCp d3 && isHexDigitCp d4) = true →
        isSurrogate (hexQuad d1 d2 d3 d4) = true →
        unescapedForJson (pre ++ 92 :: 117 :: d1 :: d2 :: d3 :: d4 :: rest) =
          pre ++ 92 :: 117 :: d1 :: d2 :: d3 :: d4 :: unescapedForJson rest)
    ∧ (∀ d1 d2, isHexDigitCp d1 = true → isHexDigitCp d2 = true →
        isSurrogate (hexPair d1 d2) = false)
    ∧ (∀ s c, c ∈ unescapedForJson s → isSurrogate c = true → c ∈ s) := by
  refine ⟨?_, ?_, ?_, mem_unescapedForJson⟩
  · intro pre d1 d2 d3 d4 rest hd hs
    have h1 : subHexEscapes (pre ++ 92 :: 117 :: d1 :: d2 :: d3 :: d4 :: rest) =
        subHexEscapes pre ++
          92 :: 92 :: 117 :: d1 :: d2 :: d3 :: d4 :: subHexEscapes rest := by
      rw [subHexEscapes_append_bs (117 :: d1 :: d2 :: d3 :: d4 :: rest) pre.length
        pre le_rfl, subHexEscapes_surrogate d1 d2 d3 d4 rest hd hs]
    obtain ⟨C, hC, hdis⟩ := collapseBackslashes_escape d1 d2 d3 d4 hd
      (subHexEscapes rest) (subHexEscapes pre).length (subHexEscapes pre) le_rfl
    refine ⟨C, ?_, hdis⟩
    show collapseBackslashes
      (subHexEscapes (pre ++ 92 :: 117 :: d1 :: d2 :: d3 :: d4 :: rest)) = _
    rw [h1, hC]
    rfl
  · intro pre d1 d2 d3 d4 rest hpre hd hs
    have hd' := hd
    simp only [Bool.and_eq_true] at hd'
    obtain ⟨⟨⟨h1, h2⟩, h3⟩, h4⟩ := hd'
    show collapseBackslashes (subHexEscapes _) = _
    rw [subHexEscapes_append _ _ hpre, subHexEscapes_surrogate _ _ _ _ _ hd hs,
      collapseBackslashes_append _ _ hpre,
      collapseBackslashes_pair 92 _ (by omega),
      collapseBackslashes_cons_ne 117 _ (by omega),
      collapseBackslashes_cons_ne d1 _ (isHexDigitCp_ne_92 _ h1),
      collapseBackslashes_cons_ne d2 _ (isHexDigitCp_ne_92 _ h2),
      collapseBackslashes_cons_ne d3 _ (isHexDigitCp_ne_92 _ h3),
      collapseBackslashes_cons_ne d4 _ (isHexDigitCp_ne_92 _ h4)]
    rfl
  · intro d1 d2 h1 h2
    have hv1 := hexVal_lt_16 d1 h1
    have hv2 := hexVal_lt_16 d2 h2
    have hlt : hexPair d1 d2 < 55296 := by unfold hexPair; omega
    simp only [isSurrogate, Bool.and_eq_false_iff, decide_eq_false_iff_not]
    left
    omega

/-- Witness for C1: the escape `\uD800` passes through the decoder textually
intact behind the prefix `\"` (the typical JSON-payload shape the decoder
sees: code points `92,34` before the escape), behind the empty backslash-free
prefix, and a surrogate code point in the output of the decoder was already
present in the input. -/
theorem claimC1_witness :
    (∃ C, unescapedForJson [92, 34, 92, 117, 68, 56, 48, 48] =
        C ++ 92 :: 117 :: 68 :: 56 :: 48 :: 48 :: unescapedForJson [] ∧
      (C = unescapedForJson [92, 34] ∨ C ++ [92] = unescapedForJson [92, 34])) ∧
      unescapedForJson [92, 117, 68, 56, 48, 48] = [92, 117, 68, 56, 48, 48] ∧
      (55296 : Nat) ∈ ([55296] : List Nat) := by
  refine ⟨?_, ?_, ?_⟩
  · exact claimC1_surrogate_escapes_intact.1 [92, 34] 68 56 48 48 [] (by decide) (by decide)
  · exact claimC1_surrogate_escapes_intact.2.1 [] 68 56 48 48 []
      (by simp) (by decide) (by decide)
  · exact claimC1_surrogate_escapes_intact.2.2.2 [55296] 55296 (by decide) (by decide)


/-- Claim C2: for every `JSON.parse` call site whose argument is not exactly
one string-literal token (not a string, or more than one argument token
before the closing parenthesis), `parse_json_literal` raises
`NotParseableError` - not the unexpected-structure error - and the
recognizer loop's step for that site leaves the whole state (in particular
the `jsons` mapping and every other collection) unchanged. -/
theorem claimC2_nonliteral_argument (a : Arena) (s : LoopSt) (i d p stI argI : Nat)
    (htyp : a.typ i = .TK_WORD) (htxt : a.txt i = "JSON")
    (hd : a.next i = some d) (hp : a.next d = some p) (hptxt : a.txt p = "parse")
    (hst : a.next p = some stI) (harg : a.next stI = some argI)
    (hbad : a.typ argI ≠ .TK_STRING ∨ a.next argI ≠ a.closed stI) :
    parseJsonLiteral a i p = .error .notParseable ∧ stepTok a s i = .ok s := by
  have hpl : parseJsonLiteral a i p = .error .notParseable := by
    rcases hbad with hbad | hbad
    · simp [parseJsonLiteral, hst, harg, refGet, hbad, Bind.bind, Except.bind, throw,
        throwThe, MonadExceptOf.throw]
    · by_cases hstr : a.typ argI = .TK_STRING
      · simp [parseJsonLiteral, hst, harg, refGet, hstr, hbad, Bind.bind, Except.bind,
          throw, throwThe, MonadExceptOf.throw]
      · simp [parseJsonLiteral, hst, harg, refGet, hstr, Bind.bind, Except.bind, throw,
          throwThe, MonadExceptOf.throw]
  refine ⟨hpl, ?_⟩
  by_cases hmem : i ∈ s.ap
  · simp [stepTok, hmem]
  · have h1 : stepString a s i = .ok s := by
      simp [stepString, htyp]
    have h2 : stepJson a s i = .ok s := by
      simp [stepJson, htyp, htxt, hd, hp, hptxt, hpl, Bind.bind, Except.bind, throw,
        throwThe, MonadExceptOf.throw]
    have h3 : stepEquals a s i = .ok s := by
      simp [stepEquals, htyp]
    simp [stepTok, hmem, h1, h2, h3]

/-- Witness for C2: the call site `JSON.parse(x)` with a variable argument,
processed from the loop's initial state. -/
theorem claimC2_witness :
    parseJsonLiteral arenaC2w 0 2 = .error .notParseable ∧
      stepTok arenaC2w {} 0 = .ok {} :=
  claimC2_nonliteral_argument arenaC2w {} 0 1 2 3 4 rfl rfl rfl rfl rfl rfl rfl
    (Or.inl (by decide))

/-- Claim C3: on `function bar(x){try{d.Mb.get("/api/foo")}catch(o){}}` the
recognizer yields exactly one `APIFunction` with name `bar`, argument list
`["x"]`, endpoint `/api/foo` and method `get` (plus the captured body text),
and `/api/foo` is not also reported as a bare other-API-URL (the
other-API-URL collection is empty). -/
theorem claimC3_api_function_recognized :
    (findInterestingThingsInJs arenaC3).map Interesting.apiFunctions =
      .ok [⟨"bar", ["x"], "\x7btry\x7bd.Mb.get(\"/api/foo\")\x7dcatch(o)\x7b\x7d",
        "/api/foo", "get"⟩] ∧
    (findInterestingThingsInJs arenaC3).map Interesting.otherApiUrls = .ok [] := by
  constructor <;> rfl


/-- Counterexample to claim C4 as stated: in
`42: function(e){ if(c){ JSON.parse("1") } }` an enclosing
`<integer>: function(...)` pattern exists and is findable by walking parent
links (the repository's own `get_function_id` walker returns 42 from the
`JSON` token), yet `parse_json_literal` neither emits owner 42 nor raises
the unexpected-structure error: it raises an uncaught `ValueError`, because
it reads the owner only from the immediately enclosing `if (c)` context
(`int(float(")"))`). -/
theorem claimC4_counterexample :
    parseJsonLiteral arenaC4ce 12 14 = .error .valueError ∧
      getFunctionId arenaC4ce 12 = .ok (some 42) := by
  constructor <;> rfl

/-- Claim C4 as amended: after the single-string-literal check passes and
the literal decodes, `parse_json_literal` inspects only the immediately
enclosing context of the `JSON` token - it does not walk the parent chain.
(1) When the token before the immediate parent block has no `opened` link,
it raises `UnexpectedParseError`.  (2) When the immediate context is
`<integer>: function(...) {`, the emitted owner id is `int(float())` of that
integer - the spec's own vector `42: function(e,t,n){var r=JSON.parse(...)}`
yields owner 42.  (3) When the `JSON` token has no parent at all, the
failure is an uncaught `AttributeError`, not unexpected-structure. -/
theorem claimC4_owner_from_immediate_context :
    (∀ (a : Arena) (i p stI argI fbI faeI : Nat) (v : Json),
      a.next p = some stI → a.next stI = some argI →
      a.typ argI = .TK_STRING → a.next argI = a.closed stI →
      unescapeAndParseJson (stripQuotes (a.txt argI)) = .ok v →
      a.parent i = some fbI → a.prev fbI = some faeI → a.opened faeI = none →
      parseJsonLiteral a i p = .error .unexpectedParse)
    ∧ parseJsonLiteral arenaC4ok 14 16 = .ok (42, .obj [([97], .num 1)])
    ∧ parseJsonLiteral arenaC4top 0 2 = .error .attributeError := by
  refine ⟨?_, rfl, rfl⟩
  intro a i p stI argI fbI faeI v hst harg hstr hone hdec hfb hfae hop
  simp [parseJsonLiteral, hst, harg, refGet, hstr, hone, hdec, hfb, hfae, hop,
    Bind.bind, Except.bind, throw, throwThe, MonadExceptOf.throw]

/-- Witness for the amended C4: in `f{ JSON.parse("1") }` the token before
the enclosing block is a word without an `opened` link, so the site raises
`UnexpectedParseError`. -/
theorem claimC4_witness : parseJsonLiteral arenaC4w 2 4 = .error .unexpectedParse :=
  claimC4_owner_from_immediate_context.1 arenaC4w 2 4 5 6 1 0 (.num 1)
    rfl rfl rfl rfl rfl rfl rfl rfl

/-- Counterexample to claim C5 as stated: with two input files, one whose
extraction raises (a top-level `"/api/x"` string makes `parse_api_url`
dereference `None`) and one healthy, the whole run returns the error and
yields no recognizer outputs at all for the healthy sibling - though the
healthy file alone would have produced a static-URL collection. -/
theorem claimC5_counterexample :
    findInterestingThingsInAllFiles [(1, arenaC5bad), (2, arenaC5good)] =
      .error .attributeError ∧
    findInterestingThingsInAllFiles [(2, arenaC5good)] =
      .ok ⟨[(2, ["_next/static/img.png"])], [], [], [], []⟩ := by
  constructor <;> rfl

/-- Claim C5 as amended: `find_interesting_things_in_all_files` has no
per-file error handling - whenever the extraction of any input file raises,
the whole run aborts with an error (no file's outputs are returned).  Only
`NotParseableError`/`UnexpectedParseError` at individual `JSON.parse` sites
are contained (claim C2); there is no per-file containment. -/
theorem claimC5_failure_aborts_run (files : List (Nat × Arena)) (fa : Nat × Arena)
    (e : PyErr) (hmem : fa ∈ files)
    (herr : findInterestingThingsInJs fa.2 = .error e) :
    ∃ e2, findInterestingThingsInAllFiles files = .error e2 := by
  suffices h : ∀ st : AllFiles, ∃ e2, findAllGo st files = .error e2 by
    exact h {}
  induction files with
  | nil => cases hmem
  | cons hd tl ih =>
    intro st
    obtain ⟨f0, a0⟩ := hd
    rcases List.mem_cons.mp hmem with heq | hmem2
    · subst heq
      exact ⟨e, by simp [findAllGo, herr]⟩
    · cases hout : findInterestingThingsInJs a0 with
      | error e2 => exact ⟨e2, by simp [findAllGo, hout]⟩
      | ok things =>
        obtain ⟨e2, h2⟩ := ih hmem2 (st.combine f0 things)
        exact ⟨e2, by simp [findAllGo, hout, h2]⟩

/-- Witness for the amended C5: the two-file run of the counterexample pair
aborts with some error. -/
theorem claimC5_witness :
    ∃ e2, findInterestingThingsInAllFiles [(1, arenaC5bad), (2, arenaC5good)] =
      .error e2 :=
  claimC5_failure_aborts_run [(1, arenaC5bad), (2, arenaC5good)] (1, arenaC5bad)
    .attributeError (List.mem_cons_self _ _) rfl


/-- Counterexample to claim C6 as stated: `parse_webpack`'s output is not a
mapping from module ID to chunk path - it is `tuple(d.values())`, the path
sequence with the IDs dropped.  Two bundles that differ only in a module id
(7 versus 9, in a ternary entry whose path does not mention the parameter)
produce identical outputs, while the internal dict distinguishes them. -/
theorem claimC6_counterexample :
    parseWebpack arenaC6a = parseWebpack arenaC6b ∧
      parseWebpackDict arenaC6a ≠ parseWebpackDict arenaC6b ∧
      arenaC6a ≠ arenaC6b := by
  refine ⟨rfl, ?_, by decide⟩
  intro h
  have h1 : parseWebpackDict arenaC6a =
      .ok [(7, "_next/static/chunks/a.js"), (1, "_next/static/chunks/1.x.js")] := rfl
  have h2 : parseWebpackDict arenaC6b =
      .ok [(9, "_next/static/chunks/a.js"), (1, "_next/static/chunks/1.x.js")] := rfl
  rw [h1, h2] at h
  exact absurd (Except.ok.inj h) (by decide)

/-- Claim C6 as amended: on an expected-shape bundle `parse_webpack`
internally builds a single module-ID-to-path dict merging the
ternary-derived entries (string-concatenating the `+`-joined parts and
substituting the parameter reference `e` with the key, under the `_next/`
root) with the trailing-dictionary entries (key `K`, value `V` giving the
fixed template `_next/static/chunks/K.V.js`) - but it returns only the
sequence of that dict's path values, dropping the module IDs. -/
theorem claimC6_merged_dict_values :
    parseWebpackDict arenaC6 = .ok [(7, "_next/static/chunks/a7.js"),
      (1, "_next/static/chunks/1.x.js"), (2, "_next/static/chunks/2.y.js")] ∧
    parseWebpack arenaC6 = .ok ["_next/static/chunks/a7.js",
      "_next/static/chunks/1.x.js", "_next/static/chunks/2.y.js"] := by
  constructor <;> rfl

/-- Counterexample to claim C7 as stated: on the claim's own example the
resolver does not yield the route key `_next//x` - route keys are stored
without the `_next/` root prefix (`d[URLPath(key)]`); only the asset-list
elements pass through `_convert_path`. -/
theorem claimC7_counterexample :
    parseBuildManifest arenaC7 ≠ .ok [("_next//x", ["_next/c1.js", "_next/c2.js"])] := by
  intro h
  have h1 : parseBuildManifest arenaC7 =
      .ok [("/x", ["_next/c1.js", "_next/c2.js"])] := rfl
  rw [h1] at h
  exact absurd (Except.ok.inj h) (by decide)

/-- Claim C7 as amended: the resolver yields
`{"/x": ["_next/c1.js", "_next/c2.js"]}` - each bare-word element is
replaced by the call-site argument positionally bound to the parameter of
that name and prefixed with the fixed `_next/` root; the route key keeps its
original text. -/
theorem claimC7_resolved_manifest :
    parseBuildManifest arenaC7 = .ok [("/x", ["_next/c1.js", "_next/c2.js"])] := rfl


/-- Counterexample to claim C9 as stated: on a bundle without the expected
numbered function definition, `parse_localizations_from_app` raises
`StopIteration` from its unguarded `next(...)`, and `_extract_app` - which
calls it with no exception handling - propagates the error instead of
reporting a missing localization map; the extraction run aborts. -/
theorem claimC9_counterexample :
    parseLocalizationsFromApp arenaC9bad = .error .stopIteration ∧
      extractApp (some arenaC9bad) = .error .stopIteration := by
  constructor <;> rfl

/-- Claim C9 as amended: the missing-localization-map report (a logged
warning with `None` returned, letting downstream naming fall back to raw
numeric identifiers) happens only when no `_app` file path is found at all;
a found bundle with mismatched structure raises an uncaught error that
aborts the run (see the counterexample).  On success each entry
`{path: [i, j]}` is re-keyed as `(j, i) -> path`: `{"./en-US/a.json": [3, 5]}`
becomes `(5, 3) -> ./en-US/a.json`. -/
theorem claimC9_mismatch_aborts :
    extractApp none = .ok none ∧
      parseLocalizationsFromApp arenaC9good = .ok [((5, 3), "./en-US/a.json")] ∧
      extractApp (some arenaC9good) = .ok (some [((5, 3), "./en-US/a.json")]) := by
  refine ⟨rfl, rfl, rfl⟩




theorem specStrListSep_eq_of_head_ne (l : List Tok)
    (h : ∀ t rest, l = t :: rest → t.ttype ≠ .TK_COMMA) :
    specStrListSep l = specStrList l := by
  cases l with
  | nil => rfl
  | cons t rest =>
    have := h t rest rfl
    simp [specStrListSep, specStrList, this]

theorem specObjPairsSep_eq_of_head_ne (l : List Tok)
    (h : ∀ t rest, l = t :: rest → t.ttype ≠ .TK_COMMA) :
    specObjPairsSep l = specObjPairs l := by
  cases l with
  | nil => rfl
  | cons t rest =>
    have ht := h t rest rfl
    cases rest with
    | nil => simp [specObjPairsSep, specObjPairs, ht]
    | cons u rest2 =>
      cases rest2 with
      | nil => simp [specObjPairsSep, specObjPairs, ht]
      | cons v rest3 => simp [specObjPairsSep, specObjPairs, ht]



theorem list_range'_succ_map (a : Arena) (s k : Nat) :
    (List.range' s (k + 1)).map a.tok = a.tok s :: (List.range' (s + 1) k).map a.tok := by
  rw [List.range'_succ]
  rfl

theorem arrLoop_spec (a : Arena) (stI c : Nat) (hcl : a.closed stI = some c)
    (hc : c < a.toks.length) (hccm : a.typ c ≠ .TK_COMMA) :
    ∀ fuel ti acc l, ti ≤ c → arrLoop a stI (some ti) acc fuel = .ok (some l) →
      ∃ m, specStrList ((List.range' ti (c - ti)).map a.tok) = some m ∧ l = acc ++ m := by
  intro fuel
  induction fuel with
  | zero => intro ti acc l _ hres; simp [arrLoop] at hres
  | succ f ih =>
    intro ti acc l hle hres
    by_cases hti : ti = c
    · subst hti
      rw [arrLoop, if_pos (show some ti = a.closed stI by rw [hcl])] at hres
      obtain rfl : acc = l := Option.some.inj (Except.ok.inj hres)
      exact ⟨[], by rw [Nat.sub_self]; rfl, by simp⟩
    · have htilt : ti < c := Nat.lt_of_le_of_ne hle hti
      have hne : ¬ (some ti = a.closed stI) := by rw [hcl]; simp [hti]
      rw [arrLoop, if_neg hne] at hres
      by_cases hstr : a.typ ti = .TK_STRING
      · rw [if_pos hstr] at hres
        have hstr' : (a.tok ti).ttype = .TK_STRING := hstr
        have hnext : a.next ti = some (ti + 1) := by
          unfold Arena.next Arena.n; rw [if_pos (by omega)]
        by_cases hbrk : a.next ti = a.closed stI
        · rw [if_pos hbrk] at hres
          obtain rfl : acc ++ [stripQuotes (a.txt ti)] = l :=
            Option.some.inj (Except.ok.inj hres)
          have h1 : ti + 1 = c := by
            rw [hnext, hcl] at hbrk; exact Option.some.inj hbrk
          refine ⟨[stripQuotes (a.txt ti)], ?_, rfl⟩
          rw [show c - ti = 0 + 1 by omega, list_range'_succ_map]
          rw [show (List.range' (ti + 1) 0).map a.tok = [] from rfl]
          simp [specStrList, specStrListSep, hstr', Arena.txt]
        · rw [if_neg hbrk] at hres
          have hne1 : ti + 1 ≠ c := by
            intro hh; rw [hnext, hcl] at hbrk; exact hbrk (by rw [hh])
          have h1lt : ti + 1 < c := by omega
          simp only [hnext] at hres
          by_cases hcm : a.typ (ti + 1) = .TK_COMMA
          · rw [if_pos hcm] at hres
            have hcm' : (a.tok (ti + 1)).ttype = .TK_COMMA := hcm
            have hnext2 : a.next (ti + 1) = some (ti + 2) := by
              unfold Arena.next Arena.n; rw [if_pos (by omega)]
            rw [hnext2] at hres
            obtain ⟨m, hm, hlm⟩ := ih (ti + 2) (acc ++ [stripQuotes (a.txt ti)]) l
              (by omega) hres
            refine ⟨stripQuotes (a.txt ti) :: m, ?_, by simp [hlm]⟩
            rw [show c - ti = (c - (ti + 2)) + 1 + 1 by omega, list_range'_succ_map,
              list_range'_succ_map]
            rw [show ti + 1 + 1 = ti + 2 from rfl]
            simp [specStrList, specStrListSep, hstr', hcm', hm, Arena.txt]
          · rw [if_neg hcm] at hres
            rw [hnext] at hres
            obtain ⟨m, hm, hlm⟩ := ih (ti + 1) (acc ++ [stripQuotes (a.txt ti)]) l
              (by omega) hres
            refine ⟨stripQuotes (a.txt ti) :: m, ?_, by simp [hlm]⟩
            rw [show c - ti = (c - (ti + 1)) + 1 by omega, list_range'_succ_map]
            have hsep : specStrListSep ((List.range' (ti + 1) (c - (ti + 1))).map a.tok) =
                specStrList ((List.range' (ti + 1) (c - (ti + 1))).map a.tok) := by
              apply specStrListSep_eq_of_head_ne
              intro t rest heq
              rw [show c - (ti + 1) = (c - (ti + 2)) + 1 by omega,
                list_range'_succ_map] at heq
              obtain rfl : t = a.tok (ti + 1) := (List.cons.inj heq).1.symm
              exact hcm
            simp [specStrList, hsep, hm, hstr', Arena.txt]
      · rw [if_neg hstr] at hres
        simp at hres

theorem objLoop_spec (a : Arena) (stI c : Nat) (hcl : a.closed stI = some c)
    (hc : c < a.toks.length) (hccm : a.typ c ≠ .TK_COMMA)
    (hcop : a.typ c ≠ .TK_OPERATOR) (hcstr : a.typ c ≠ .TK_STRING) :
    ∀ fuel ti acc l, ti ≤ c → objLoop a stI (some ti) acc fuel = .ok (some l) →
      ∃ ps, specObjPairs ((List.range' ti (c - ti)).map a.tok) = some ps ∧
        l = ps.foldl (fun d kv => dictInsert d kv.1 kv.2) acc := by
  intro fuel
  induction fuel with
  | zero => intro ti acc l _ hres; simp [objLoop] at hres
  | succ f ih =>
    intro ti acc l hle hres
    by_cases hti : ti = c
    · subst hti
      rw [objLoop, if_pos (show some ti = a.closed stI by rw [hcl])] at hres
      obtain rfl : acc = l := Option.some.inj (Except.ok.inj hres)
      exact ⟨[], by rw [Nat.sub_self]; rfl, rfl⟩
    · have htilt : ti < c := Nat.lt_of_le_of_ne hle hti
      have hne : ¬ (some ti = a.closed stI) := by rw [hcl]; simp [hti]
      rw [objLoop, if_neg hne] at hres
      have hnext : a.next ti = some (ti + 1) := by
        unfold Arena.next Arena.n; rw [if_pos (by omega)]
      simp only [hnext] at hres
      by_cases hk : (a.typ ti = .TK_WORD ∨ a.typ ti = .TK_RESERVED) ∧
          a.typ (ti + 1) = .TK_OPERATOR ∧ a.txt (ti + 1) = ":"
      · rw [if_pos hk] at hres
        have hne1 : ti + 1 ≠ c := fun hh => hcop (hh ▸ hk.2.1)
        have h1lt : ti + 1 < c := by omega
        have hnext2 : a.next (ti + 1) = some (ti + 2) := by
          unfold Arena.next Arena.n; rw [if_pos (by omega)]
        simp only [hnext2] at hres
        by_cases hvstr : a.typ (ti + 2) = .TK_STRING
        · rw [if_pos hvstr] at hres
          have hne2 : ti + 2 ≠ c := fun hh => hcstr (hh ▸ hvstr)
          have h2lt : ti + 2 < c := by omega
          have hnext3 : a.next (ti + 2) = some (ti + 3) := by
            unfold Arena.next Arena.n; rw [if_pos (by omega)]
          have hhead : specPairHeadOk (a.tok ti) (a.tok (ti + 1)) (a.tok (ti + 2)) :=
            ⟨hk.1, hk.2.1, hk.2.2, hvstr⟩
          by_cases hbrk : a.next (ti + 2) = a.closed stI
          · rw [if_pos hbrk] at hres
            obtain rfl : dictInsert acc (a.txt ti) (stripQuotes (a.txt (ti + 2))) = l :=
              Option.some.inj (Except.ok.inj hres)
            have h3 : ti + 3 = c := by
              rw [hnext3, hcl] at hbrk; exact Option.some.inj hbrk
            refine ⟨[(a.txt ti, stripQuotes (a.txt (ti + 2)))], ?_, rfl⟩
            rw [show c - ti = 0 + 1 + 1 + 1 by omega, list_range'_succ_map,
              list_range'_succ_map, list_range'_succ_map]
            rw [show (List.range' (ti + 1 + 1 + 1) 0).map a.tok = [] from rfl]
            rw [specObjPairs.eq_def]
            simp only [if_pos hhead]
            rfl
          · rw [if_neg hbrk] at hres
            have hne3 : ti + 3 ≠ c := by
              intro hh; rw [hnext3, hcl] at hbrk; exact hbrk (by rw [hh])
            have h3lt : ti + 3 < c := by omega
            simp only [hnext3] at hres
            by_cases hcm : a.typ (ti + 3) = .TK_COMMA
            · rw [if_pos hcm] at hres
              have hcm' : (a.tok (ti + 3)).ttype = .TK_COMMA := hcm
              have hnext4 : a.next (ti + 3) = some (ti + 4) := by
                unfold Arena.next Arena.n; rw [if_pos (by omega)]
              rw [hnext4] at hres
              obtain ⟨ps, hps, hl⟩ := ih (ti + 4)
                (dictInsert acc (a.txt ti) (stripQuotes (a.txt (ti + 2)))) l
                (by omega) hres
              refine ⟨(a.txt ti, stripQuotes (a.txt (ti + 2))) :: ps, ?_, hl⟩
              rw [show c - ti = (c - (ti + 4)) + 1 + 1 + 1 + 1 by omega,
                list_range'_succ_map, list_range'_succ_map, list_range'_succ_map,
                list_range'_succ_map]
              rw [show ti + 1 + 1 = ti + 2 from rfl, show ti + 2 + 1 = ti + 3 from rfl,
                show ti + 3 + 1 = ti + 4 from rfl]
              have hsepc : specObjPairsSep (a.tok (ti + 3) ::
                  (List.range' (ti + 4) (c - (ti + 4))).map a.tok) =
                  specObjPairs ((List.range' (ti + 4) (c - (ti + 4))).map a.tok) := by
                rw [specObjPairsSep.eq_def]
                simp [hcm']
              rw [specObjPairs.eq_def]
              simp only [if_pos hhead, hsepc, hps, Option.map_some']
              rfl
            · rw [if_neg hcm] at hres
              rw [hnext3] at hres
              obtain ⟨ps, hps, hl⟩ := ih (ti + 3)
                (dictInsert acc (a.txt ti) (stripQuotes (a.txt (ti + 2)))) l
                (by omega) hres
              refine ⟨(a.txt ti, stripQuotes (a.txt (ti + 2))) :: ps, ?_, hl⟩
              rw [show c - ti = (c - (ti + 3)) + 1 + 1 + 1 by omega,
                list_range'_succ_map, list_range'_succ_map, list_range'_succ_map]
              rw [show ti + 1 + 1 = ti + 2 from rfl, show ti + 2 + 1 = ti + 3 from rfl]
              have hsep : specObjPairsSep ((List.range' (ti + 3) (c - (ti + 3))).map a.tok) =
                  specObjPairs ((List.range' (ti + 3) (c - (ti + 3))).map a.tok) := by
                apply specObjPairsSep_eq_of_head_ne
                intro t rest heq
                rw [show c - (ti + 3) = (c - (ti + 4)) + 1 by omega,
                  list_range'_succ_map] at heq
                obtain rfl : t = a.tok (ti + 3) := (List.cons.inj heq).1.symm
                exact hcm
              rw [specObjPairs.eq_def]
              simp only [if_pos hhead, hsep, hps, Option.map_some']
              rfl
        · rw [if_neg hvstr] at hres
          simp at hres
      · rw [if_neg hk] at hres
        simp at hres

/-- C8: for every assignment examined by the array/object literal recognizer
(`maybe_parse_literal`, interesting_things.py lines 200-259), whenever an
ArrayLiteral or ObjectLiteral is emitted, the ENTIRE bracketed region between
the opener and its closer conforms to the spec grammar (`specStrList`: strings
separated by commas; `specObjPairs`: word-key `:` string-value pairs separated
by commas) and the emitted value is exactly the whole region's content.
Contrapositive: a literal containing any non-string element (or non-word key)
anywhere matches no grammar derivation, so nothing is emitted - there is never
a partial emission of the string elements seen before an offending one. -/
theorem claimC8_no_partial_emission (a : Arena) (eqIdx stI c : Nat) (lit : Lit)
    (hres : maybeParseLiteral a eqIdx = .ok (some lit))
    (hst : a.next eqIdx = some stI)
    (hcl : a.closed stI = some c) (hlt : stI < c) (hc : c < a.toks.length)
    (hend : a.typ c = .TK_END_EXPR ∨ a.typ c = .TK_END_BLOCK) :
    (∀ al, lit = .arr al → specStrList (regionToks a stI c) = some al.value) ∧
    (∀ ol, lit = .obj ol → ∃ ps, specObjPairs (regionToks a stI c) = some ps ∧
      ol.value = dictFold ps) := by
  have hccm : a.typ c ≠ .TK_COMMA := by rcases hend with h | h <;> simp [h]
  have hcop : a.typ c ≠ .TK_OPERATOR := by rcases hend with h | h <;> simp [h]
  have hcstr : a.typ c ≠ .TK_STRING := by rcases hend with h | h <;> simp [h]
  have hnextst : a.next stI = some (stI + 1) := by
    unfold Arena.next Arena.n
    rw [if_pos (by omega)]
  simp only [maybeParseLiteral] at hres
  split at hres
  · simp [pure, Except.pure] at hres
  · rename_i nameI hprev
    split at hres
    · simp [pure, Except.pure] at hres
    · split at hres
      · simp [pure, Except.pure] at hres
      · split at hres
        · simp [pure, Except.pure] at hres
        · rename_i stI2 hst2
          obtain rfl : stI = stI2 := by
            rw [hst] at hst2; exact Option.some.inj hst2
          split at hres
          · simp [pure, Except.pure] at hres
          · split at hres
            · -- array branch
              cases hloop : arrLoop a stI (a.next stI) [] (a.n + 2) with
              | error e => rw [hloop] at hres; simp [Bind.bind, Except.bind] at hres
              | ok o =>
                cases o with
                | none =>
                  rw [hloop] at hres
                  simp [Bind.bind, Except.bind, pure, Except.pure] at hres
                | some items =>
                  rw [hloop] at hres
                  simp only [Bind.bind, Except.bind] at hres
                  cases hfid : getFunctionId a eqIdx with
                  | error e => rw [hfid] at hres; simp at hres
                  | ok fid =>
                    rw [hfid] at hres
                    simp only [pure, Except.pure, Except.ok.injEq,
                      Option.some.injEq] at hres
                    rw [hnextst] at hloop
                    obtain ⟨m, hm, hlm⟩ := arrLoop_spec a stI c hcl hc hccm (a.n + 2)
                      (stI + 1) [] items (by omega) hloop
                    constructor
                    · intro al hal
                      rw [← hres] at hal
                      obtain rfl : al = ⟨fid, a.txt nameI, items⟩ := by
                        cases hal; rfl
                      show specStrList
                        ((List.range' (stI + 1) (c - (stI + 1))).map a.tok) = some items
                      rw [hm, hlm]
                      simp
                    · intro ol hol
                      rw [← hres] at hol
                      cases hol
            · split at hres
              · -- object branch
                cases hloop : objLoop a stI (a.next stI) [] (a.n + 2) with
                | error e => rw [hloop] at hres; simp [Bind.bind, Except.bind] at hres
                | ok o =>
                  cases o with
                  | none =>
                    rw [hloop] at hres
                    simp [Bind.bind, Except.bind, pure, Except.pure] at hres
                  | some items =>
                    rw [hloop] at hres
                    simp only [Bind.bind, Except.bind] at hres
                    cases hfid : getFunctionId a eqIdx with
                    | error e => rw [hfid] at hres; simp at hres
                    | ok fid =>
                      rw [hfid] at hres
                      simp only [pure, Except.pure, Except.ok.injEq,
                        Option.some.injEq] at hres
                      rw [hnextst] at hloop
                      obtain ⟨ps, hps, hlp⟩ := objLoop_spec a stI c hcl hc hccm hcop
                        hcstr (a.n + 2) (stI + 1) [] items (by omega) hloop
                      constructor
                      · intro al hal
                        rw [← hres] at hal
                        cases hal
                      · intro ol hol
                        rw [← hres] at hol
                        obtain rfl : ol = ⟨fid, a.txt nameI, items⟩ := by
                          cases hol; rfl
                        exact ⟨ps, hps, hlp⟩
              · simp [pure, Except.pure] at hres


/-- Witness for C8: on the concrete stream `x = ["a","b"]` the recognizer
emits the array literal and the whole region between `[` and `]` indeed
matches the spec grammar with exactly the emitted elements. -/
theorem claimC8_witness :
    specStrList (regionToks arenaC8w 2 6) = some ["a", "b"] :=
  (claimC8_no_partial_emission arenaC8w 1 2 6 (.arr ⟨none, "x", ["a", "b"]⟩)
    rfl rfl rfl (by decide) (by decide) (Or.inl rfl)).1 ⟨none, "x", ["a", "b"]⟩ rfl



theorem mem_setAdd {α : Type} [DecidableEq α] (l : List α) (x j : α) :
    j ∈ setAdd l x ↔ j ∈ l ∨ j = x := by
  unfold setAdd
  split
  · rename_i hx
    constructor
    · exact Or.inl
    · rintro (h | rfl)
      · exact h
      · exact hx
  · simp

theorem replace_pred_eq {α β : Type} [DecidableEq α] (k k2 : α) (v : β) :
    (fun (q : α × β) => decide ((if q.1 = k then (q.1, v) else q).1 = k2)) =
      (fun q => decide (q.1 = k2)) := by
  funext q
  by_cases hq : q.1 = k <;> simp [hq]

theorem dictLookup_insert_self {α β : Type} [DecidableEq α]
    (d : List (α × β)) (k : α) (v : β) :
    dictLookup (dictInsert d k v) k = some v := by
  unfold dictInsert dictLookup
  split
  · rename_i hany
    rw [List.find?_map, Function.comp_def]
    rw [show (fun q => decide (((fun p => if p.1 = k then (p.1, v) else p) q).1 = k)) =
      (fun (q : α × β) => decide (q.1 = k)) from replace_pred_eq k k v]
    rw [List.any_eq_true] at hany
    obtain ⟨x, hx, hpx⟩ := hany
    cases hq : d.find? (fun p => decide (p.1 = k)) with
    | none =>
      rw [List.find?_eq_none] at hq
      exact absurd hpx (hq x hx)
    | some q =>
      have hq1 : q.1 = k := by simpa using List.find?_some hq
      simp [hq1]
  · rename_i hany
    rw [List.find?_append]
    have hnone : d.find? (fun p => decide (p.1 = k)) = none := by
      rw [List.find?_eq_none]
      intro x hx hc
      exact hany (List.any_eq_true.mpr ⟨x, hx, hc⟩)
    rw [hnone]
    simp

theorem dictLookup_insert_ne {α β : Type} [DecidableEq α]
    (d : List (α × β)) (k k2 : α) (v : β) (h : k2 ≠ k) :
    dictLookup (dictInsert d k v) k2 = dictLookup d k2 := by
  unfold dictInsert dictLookup
  split
  · rw [List.find?_map, Function.comp_def]
    rw [show (fun q => decide (((fun p => if p.1 = k then (p.1, v) else p) q).1 = k2)) =
      (fun (q : α × β) => decide (q.1 = k2)) from replace_pred_eq k k2 v]
    cases hf : d.find? (fun p => decide (p.1 = k2)) with
    | none => rfl
    | some q =>
      have hq1 : q.1 = k2 := by simpa using List.find?_some hf
      have : (if q.1 = k then (q.1, v) else q) = q := by
        rw [if_neg (by rw [hq1]; exact h)]
      simp [this]
  · rw [List.find?_append]
    have : ([(k, v)].find? (fun p => decide (p.1 = k2))) = none := by
      simp [List.find?, Ne.symm h]
    rw [this]
    simp

theorem dictLookup_foldl_insert {α β : Type} [DecidableEq α] (ps : List (α × β)) :
    ∀ (d : List (α × β)) (k : α),
    dictLookup (ps.foldl (fun d kv => dictInsert d kv.1 kv.2) d) k =
      (ps.filter (fun kv => kv.1 = k)).foldl (fun _ kv => some kv.2) (dictLookup d k) := by
  induction ps with
  | nil => intro d k; rfl
  | cons kv ps ih =>
    intro d k
    simp only [List.foldl_cons]
    rw [ih]
    by_cases hk : kv.1 = k
    · rw [List.filter_cons_of_pos (by simpa using hk), List.foldl_cons]
      rw [show kv.1 = k from hk] at *
      rw [dictLookup_insert_self]
    · rw [List.filter_cons_of_neg (by simpa using hk),
        dictLookup_insert_ne _ _ _ _ (fun hc => hk hc.symm)]

theorem dictInsert_filter_len {α β : Type} [DecidableEq α]
    (d : List (α × β)) (k : α) (v : β) (k2 : α)
    (h : (d.filter (fun p => p.1 = k2)).length ≤ 1) :
    ((dictInsert d k v).filter (fun p => p.1 = k2)).length ≤ 1 := by
  unfold dictInsert
  split
  · rename_i hany
    rw [List.filter_map, Function.comp_def]
    rw [show (fun q => decide (((fun p => if p.1 = k then (p.1, v) else p) q).1 = k2)) =
      (fun (q : α × β) => decide (q.1 = k2)) from replace_pred_eq k k2 v]
    rw [List.length_map]
    exact h
  · rename_i hany
    rw [List.filter_append]
    by_cases hk : k = k2
    · have hnil : d.filter (fun p => decide (p.1 = k2)) = [] := by
        rw [List.filter_eq_nil_iff]
        intro x hx hc
        exact hany (List.any_eq_true.mpr ⟨x, hx, by rw [hk]; exact hc⟩)
      rw [hnil]
      subst hk
      simp
    · have : ([(k, v)].filter (fun p => decide (p.1 = k2))) = [] := by
        simp [List.filter, hk]
      rw [this, List.append_nil]
      exact h

theorem foldl_insert_filter_len {α β : Type} [DecidableEq α] (ps : List (α × β)) :
    ∀ (d : List (α × β)),
    (∀ k2, (d.filter (fun p => p.1 = k2)).length ≤ 1) →
    ∀ k2, ((ps.foldl (fun d kv => dictInsert d kv.1 kv.2) d).filter
      (fun p => p.1 = k2)).length ≤ 1 := by
  induction ps with
  | nil => intro d h k2; exact h k2
  | cons kv ps ih =>
    intro d h k2
    simp only [List.foldl_cons]
    exact ih (dictInsert d kv.1 kv.2) (fun k3 => dictInsert_filter_len d kv.1 kv.2 k3 (h k3)) k2

theorem dict_filter_eq_single {α β : Type} [DecidableEq α]
    (d : List (α × β)) (k : α) (v : β)
    (hlen : (d.filter (fun p => p.1 = k)).length ≤ 1)
    (hlook : dictLookup d k = some v) :
    d.filter (fun p => p.1 = k) = [(k, v)] := by
  unfold dictLookup at hlook
  cases hf : d.find? (fun p => decide (p.1 = k)) with
  | none => rw [hf] at hlook; cases hlook
  | some q =>
    rw [hf] at hlook
    have hq2 : q.2 = v := Option.some.inj hlook
    have hq1 : q.1 = k := by simpa using List.find?_some hf
    have hqeq : q = (k, v) := by
      cases q
      simp_all
    have hmem : q ∈ d.filter (fun p => decide (p.1 = k)) :=
      List.mem_filter.mpr ⟨List.mem_of_find?_eq_some hf, by simp [hq1]⟩
    cases hfil : d.filter (fun p => decide (p.1 = k)) with
    | nil => rw [hfil] at hmem; cases hmem
    | cons x xs =>
      rw [hfil] at hmem hlen
      have hxs : xs = [] := by
        simp only [List.length_cons] at hlen
        exact List.length_eq_zero.mp (by omega)
      subst hxs
      have : q = x := by simpa using hmem
      rw [← this, hqeq]


theorem stepString_jsons (a : Arena) (s s1 : LoopSt) (i : Nat)
    (h : stepString a s i = .ok s1) :
    s1.jsons = s.jsons ∧ ∀ j ∈ s1.ap, j ∈ s.ap ∨ j = i := by
  simp only [stepString] at h
  split at h
  · cases h
    exact ⟨rfl, fun j hj => Or.inl hj⟩
  · repeat' split at h
    all_goals
      first
        | (cases h
           exact ⟨rfl, by intro j hj; simp only [mem_setAdd] at hj; tauto⟩)
        | (cases h
           exact ⟨rfl, fun j hj => Or.inl hj⟩)
        | cases h

theorem stepJson_jsons (a : Arena) (s s2 : LoopSt) (i : Nat)
    (h : stepJson a s i = .ok s2) :
    s2.jsons = (match siteRes a i with
      | some kv => dictInsert s.jsons kv.1 kv.2
      | none => s.jsons) ∧
    ∀ j ∈ s2.ap, j ∈ s.ap ∨ j = i ∨ a.txt j = "parse" := by
  unfold stepJson at h
  unfold siteRes
  split at h
  · rename_i hg
    rw [if_pos hg]
    cases hni : a.next i with
    | none => simp only [hni] at h; cases h
    | some d =>
      simp only [hni] at h ⊢
      cases hnd : a.next d with
      | none => simp only [hnd] at h; cases h
      | some p =>
        simp only [hnd] at h ⊢
        by_cases htp : a.txt p = "parse"
        · rw [if_pos htp] at h ⊢
          cases hp : parseJsonLiteral a i p with
          | error e =>
            rw [hp] at h
            simp only [hp, Except.toOption]
            cases e <;> simp only [] at h <;>
              first
                | (cases h; exact ⟨rfl, fun j hj => Or.inl hj⟩)
                | cases h
          | ok kv =>
            rw [hp] at h
            simp only [hp, Except.toOption]
            cases h
            refine ⟨rfl, ?_⟩
            intro j hj
            simp only [mem_setAdd] at hj
            rcases hj with (hj | rfl) | rfl
            · exact Or.inl hj
            · exact Or.inr (Or.inl rfl)
            · exact Or.inr (Or.inr htp)
        · rw [if_neg htp] at h ⊢
          cases h
          exact ⟨rfl, fun j hj => Or.inl hj⟩
  · rename_i hg
    cases h
    rw [if_neg hg]
    exact ⟨rfl, fun j hj => Or.inl hj⟩

theorem stepEquals_jsons (a : Arena) (s s2 : LoopSt) (i : Nat)
    (h : stepEquals a s i = .ok s2) : s2.jsons = s.jsons ∧ s2.ap = s.ap := by
  unfold stepEquals at h
  split at h
  · split at h
    · cases h
    · cases h; exact ⟨rfl, rfl⟩
    · cases h; exact ⟨rfl, rfl⟩
    · cases h; exact ⟨rfl, rfl⟩
  · cases h; exact ⟨rfl, rfl⟩

theorem stepTok_jsons (a : Arena) (s s2 : LoopSt) (i : Nat)
    (hap : i ∈ s.ap → ¬(a.typ i = .TK_WORD ∧ a.txt i = "JSON"))
    (h : stepTok a s i = .ok s2) :
    s2.jsons = (match siteRes a i with
      | some kv => dictInsert s.jsons kv.1 kv.2
      | none => s.jsons) ∧
    ∀ j ∈ s2.ap, j ∈ s.ap ∨ j = i ∨ a.txt j = "parse" := by
  unfold stepTok at h
  split at h
  · rename_i hmem
    cases h
    have hsite : siteRes a i = none := by unfold siteRes; rw [if_neg (hap hmem)]
    rw [hsite]
    exact ⟨rfl, fun j hj => Or.inl hj⟩
  · cases hs1 : stepString a s i with
    | error e => rw [hs1] at h; cases h
    | ok s1 =>
      simp only [hs1] at h
      cases hs2 : stepJson a s1 i with
      | error e => rw [hs2] at h; cases h
      | ok smid =>
        simp only [hs2] at h
        obtain ⟨hj1, ha1⟩ := stepString_jsons a s s1 i hs1
        obtain ⟨hj2, ha2⟩ := stepJson_jsons a s1 smid i hs2
        obtain ⟨hj3, ha3⟩ := stepEquals_jsons a smid s2 i h
        constructor
        · rw [hj3, hj2, hj1]
        · intro j hjm
          rw [ha3] at hjm
          rcases ha2 j hjm with hm | hm | hm
          · rcases ha1 j hm with hm2 | hm2
            · exact Or.inl hm2
            · exact Or.inr (Or.inl hm2)
          · exact Or.inr (Or.inl hm)
          · exact Or.inr (Or.inr hm)


theorem runGo_jsons_inv (a : Arena) : ∀ (k i : Nat) (s out : LoopSt),
    (∀ j ∈ s.ap, j < i ∨ a.typ j = .TK_STRING ∨ a.txt j = "parse") →
    runGo a s (List.range' i k) = .ok out →
    out.jsons = ((List.range' i k).filterMap (siteRes a)).foldl
      (fun d kv => dictInsert d kv.1 kv.2) s.jsons := by
  intro k
  induction k with
  | zero =>
    intro i s out _ h
    cases h
    rfl
  | succ n ih =>
    intro i s out hinv h
    rw [List.range'_succ] at h ⊢
    unfold runGo at h
    cases hstep : stepTok a s i with
    | error e => rw [hstep] at h; cases h
    | ok s2 =>
      simp only [hstep] at h
      have hap : i ∈ s.ap → ¬(a.typ i = .TK_WORD ∧ a.txt i = "JSON") := by
        intro hm hg
        rcases hinv i hm with hlt | hty | htx
        · omega
        · rw [hg.1] at hty
          cases hty
        · rw [hg.2] at htx
          exact absurd htx (by decide)
      obtain ⟨hjs, hapnew⟩ := stepTok_jsons a s s2 i hap hstep
      have hinv2 : ∀ j ∈ s2.ap, j < i + 1 ∨ a.typ j = .TK_STRING ∨ a.txt j = "parse" := by
        intro j hjm
        rcases hapnew j hjm with hm | rfl | hp
        · rcases hinv j hm with h1 | h2 | h3
          · exact Or.inl (by omega)
          · exact Or.inr (Or.inl h2)
          · exact Or.inr (Or.inr h3)
        · exact Or.inl (by omega)
        · exact Or.inr (Or.inr hp)
      have hrest := ih (i + 1) s2 out hinv2 h
      rw [hrest, List.filterMap_cons]
      cases hsite : siteRes a i with
      | none =>
        rw [hsite] at hjs
        rw [hjs]
      | some kv =>
        rw [hsite] at hjs
        rw [List.foldl_cons, hjs]

theorem findJs_jsons (a : Arena) (out : Interesting)
    (h : findInterestingThingsInJs a = .ok out) :
    out.jsons = (jsonSites a).foldl (fun d kv => dictInsert d kv.1 kv.2) [] := by
  unfold findInterestingThingsInJs at h
  cases hr : runGo a {} (List.range a.n) with
  | error e => rw [hr] at h; cases h
  | ok s =>
    rw [hr] at h
    cases h
    rw [List.range_eq_range'] at hr
    have hinv : ∀ j ∈ ({} : LoopSt).ap,
        j < 0 ∨ a.typ j = .TK_STRING ∨ a.txt j = "parse" := by
      intro j hj
      cases hj
    have := runGo_jsons_inv a a.n 0 {} s hinv hr
    unfold jsonSites
    rw [List.range_eq_range']
    exact this



/-- C10: when a file's token stream holds two or more successfully decoded
`JSON.parse` sites resolving to the same owner id (`hfilter` lists them in
stream order, the last one carrying value `v`; `htwo` makes them at least
two), the loop's `jsons[j[0]] = j[1]` assignment (interesting_things.py line
327) silently overwrites, so the output holds exactly one entry for that id
and its value is the decode of the site occurring latest in stream order. -/
theorem claimC10_last_site_wins (a : Arena) (out : Interesting) (id : Int) (v : Json)
    (pre : List (Int × Json))
    (hrun : findInterestingThingsInJs a = .ok out)
    (hfilter : (jsonSites a).filter (fun kv => kv.1 = id) = pre ++ [(id, v)])
    (_htwo : pre ≠ []) :
    dictLookup out.jsons id = some v ∧
      out.jsons.filter (fun kv => kv.1 = id) = [(id, v)] := by
  have hj := findJs_jsons a out hrun
  have hlook : dictLookup out.jsons id = some v := by
    rw [hj, dictLookup_foldl_insert, hfilter, List.foldl_append]
    simp
  refine ⟨hlook, ?_⟩
  have hlen := foldl_insert_filter_len (jsonSites a) [] (by intro k2; simp) id
  rw [← hj] at hlen
  exact dict_filter_eq_single out.jsons id v hlen hlook

/-- Witness for C10: on the concrete stream
`1: function(e){JSON.parse("1");JSON.parse("2")}` both sites decode under
owner id 1 and the output holds the single entry `1 -> 2` - the later
site's value. -/
theorem claimC10_witness :
    dictLookup ([(1, Json.num 2)] : List (Int × Json)) 1 = some (Json.num 2) ∧
      ([(1, Json.num 2)] : List (Int × Json)).filter (fun kv => kv.1 = 1) =
        [(1, Json.num 2)] :=
  claimC10_last_site_wins arenaC10w ⟨[], [], [], [(1, Json.num 2)], [], [], []⟩ 1
    (Json.num 2) [(1, Json.num 1)] rfl rfl (by simp)


end GSE
